import Mathlib

set_option maxRecDepth 8000

/-!
Verification of the FolderSnapshot codec (src/FolderSnapshot.py).

Strings are modelled as lists of characters (`List Char`); a Python `str`
value maps to a `List Char`, and `str.split`, `str.strip`, `str.startswith`
map to the corresponding list functions defined below.  Platform-dependent
branches are fixed to the non-Windows case (`platform.system() != "Windows"`),
matching the defaults of the source.  File bytes are `List Nat` with values
below 256.
-/

namespace FolderSnapshot

/-- Characters of a string literal; used to transcribe Python string constants. -/
def chars (s : String) : List Char := s.data

/-- Whitespace set of Python str.strip() (ASCII range). -/
def pyWs : List Char := [' ', '\t', '\n', '\r', '\x0b', '\x0c']

/-- Drop whitespace from the front. -/
def pyStripLeft (l : List Char) : List Char :=
  l.dropWhile (fun c => pyWs.contains c)

/-- Drop whitespace from the back. -/
def pyStripRight (l : List Char) : List Char :=
  (l.reverse.dropWhile (fun c => pyWs.contains c)).reverse

/-- Python str.strip(): remove whitespace from both ends. -/
def pyStrip (l : List Char) : List Char :=
  pyStripRight (pyStripLeft l)

/-- Python sep.join(pieces) for a one-character separator. -/
def pyJoin (sep : Char) : List (List Char) → List Char
  | [] => []
  | [a] => a
  | a :: b :: t => a ++ sep :: pyJoin sep (b :: t)

/-- Python str.split(sep) for a one-character separator: always returns at
least one piece; a trailing separator yields a trailing empty piece. -/
def pySplit (sep : Char) : List Char → List (List Char)
  | [] => [[]]
  | c :: rest =>
    if c = sep then [] :: pySplit sep rest
    else
      match pySplit sep rest with
      | [] => [[c]]
      | h :: t => (c :: h) :: t

/-- Python str.split(sep, 1): the piece before the first separator and the
rest, or none when the separator does not occur (accessing index 1 of the
result then raises IndexError). -/
def breakFirst (sep : Char) : List Char → Option (List Char × List Char)
  | [] => none
  | c :: rest =>
    if c = sep then some ([], rest)
    else (breakFirst sep rest).map (fun p => (c :: p.1, p.2))

/-- Python substring test (pat in line). -/
def containsSub (pat l : List Char) : Bool :=
  l.tails.any (fun t => pat.isPrefixOf t)

/-- Python tuple-startswith: does any of the given patterns prefix the list. -/
def startsWithAny (ps : List (List Char)) (l : List Char) : Bool :=
  ps.any (fun p => p.isPrefixOf l)

/-- Style-sheet at-rule prefixes excluded from marker recognition, from
restore_files_from_txt line 1082 (also used in the payload-collection loop). -/
def cssPats : List (List Char) :=
  [chars "keyframes", chars "media", chars "import", chars "charset",
   chars "font-face"]

/-- Decorator-like prefixes excluded from marker recognition only in the outer
test, from restore_files_from_txt line 1083. -/
def decoPats : List (List Char) :=
  [chars "app.route", chars "staticmethod", chars "classmethod",
   chars "property"]

/-- Full marker test of the outer scanning loop (restore_files_from_txt lines
1081-1084, identical in restore_files_from_compressed_txt lines 1411-1414):
the line starts with the at-sign, has length above one, its stripped tail does
not start with a css at-rule or decorator pattern, and the line contains
neither a def-token nor a class-token. -/
def isValidMarker (l : List Char) : Bool :=
  (l.head? == some '@') && !(l.drop 1).isEmpty &&
  !startsWithAny cssPats (pyStrip (l.drop 1)) &&
  !startsWithAny decoPats (pyStrip (l.drop 1)) &&
  !containsSub (chars "def ") l &&
  !containsSub (chars "class ") l

/-- Break test of the payload-collection loop (restore_files_from_txt line
1096, identical at line 1426 of the compressed variant): a candidate marker
screened only against the css patterns, or an error line. -/
def collectBreak (l : List Char) : Bool :=
  ((l.head? == some '@') && !(l.drop 1).isEmpty &&
    !startsWithAny cssPats (pyStrip (l.drop 1))) ||
  (l.head? == some '!')

/-- The payload-collection loop: consume lines until a break line (which is
left in place) or the end of input; returns (collected, rest). -/
def collectContent : List (List Char) → List (List Char) × List (List Char)
  | [] => ([], [])
  | l :: ls =>
    if collectBreak l then ([], l :: ls)
    else
      let r := collectContent ls
      (l :: r.1, r.2)

theorem collectContent_rest_len (ls : List (List Char)) :
    (collectContent ls).2.length ≤ ls.length := by
  induction ls with
  | nil => simp [collectContent]
  | cons l ls ih =>
    simp only [collectContent]
    split
    · simp
    · simpa using Nat.le_succ_of_le ih

/-- The Python literal used as the type slot of every parsed item. -/
def typeTag : List Char := chars "文件"

/-- Drop one trailing empty line, as the text branch of the parser does. -/
def dropTrailingEmpty (cls : List (List Char)) : List (List Char) :=
  if cls ≠ [] ∧ cls.getLast? = some [] then cls.dropLast else cls

/-- Turn collected payload lines into the content slot of an item
(restore_files_from_txt lines 1101-1113): a leading B line yields a tagged
base64 block, a leading empty-directory line yields the directory tag, and
anything else is a text block with one trailing empty line removed. -/
def processContent (cls : List (List Char)) : List Char :=
  if cls.head? == some (chars "B") then
    chars "[BINARY_FILE_BASE64]" ++ '\n' :: pyJoin '\n' cls.tail
  else if cls.head? == some (chars "[EMPTY_DIRECTORY]") then
    chars "[EMPTY_DIRECTORY]"
  else
    pyJoin '\n' (dropTrailingEmpty cls)

/-- Flush the rolling current item into the flat parts list; every item
contributes exactly the three slots type, path, content. -/
def flushItem : Option (List Char × List Char) → List (List Char)
  | none => []
  | some pc => [typeTag, pc.1, pc.2]

/-- The line-scanning loop shared by restore_files_from_txt (lines 1075-1135)
and restore_files_from_compressed_txt (lines 1406-1465): a marker line flushes
the current item and opens a new one from the collected payload; an error line
flushes and consumes the following line as error text; any other line is
appended to the current item when one is open.  The loop consumes at least
one line per iteration, so it is written with a fuel argument that is simply
an upper bound on the number of iterations; parseLoop below instantiates the
fuel with the line count, which always suffices. -/
def parseLoopF : Nat → List (List Char) → Option (List Char × List Char) →
    List (List Char) → List (List Char)
  | _, [], cur, parts => parts ++ flushItem cur
  | 0, _ :: _, cur, parts => parts ++ flushItem cur
  | Nat.succ n, l :: ls, cur, parts =>
    if isValidMarker l then
      let r := collectContent ls
      parseLoopF n r.2 (some (l.drop 1, processContent r.1))
        (parts ++ flushItem cur)
    else if l.head? == some '!' then
      parseLoopF n ls.tail (some (l.drop 1, chars "ERROR: " ++ ls.headD []))
        (parts ++ flushItem cur)
    else
      parseLoopF n ls (cur.map (fun pc => (pc.1, pc.2 ++ '\n' :: l))) parts

/-- The scanning loop at its natural fuel. -/
def parseLoop (ls : List (List Char)) (cur : Option (List Char × List Char))
    (parts : List (List Char)) : List (List Char) :=
  parseLoopF ls.length ls cur parts

theorem parseLoopF_fuel_irrel :
    ∀ n m ls cur parts, ls.length ≤ n → ls.length ≤ m →
      parseLoopF n ls cur parts = parseLoopF m ls cur parts := by
  intro n
  induction n with
  | zero =>
    intro m ls cur parts hn _
    have : ls = [] := List.length_eq_zero.mp (Nat.le_zero.mp hn)
    subst this
    cases m <;> rfl
  | succ n ih =>
    intro m ls cur parts hn hm
    cases ls with
    | nil => cases m <;> rfl
    | cons l ls =>
      cases m with
      | zero => exact absurd hm (by simp)
      | succ m =>
        simp only [parseLoopF]
        have hn1 : ls.length ≤ n := Nat.le_of_succ_le_succ hn
        have hm1 : ls.length ≤ m := Nat.le_of_succ_le_succ hm
        split
        · exact ih m _ _ _
            (Nat.le_trans (collectContent_rest_len ls) hn1)
            (Nat.le_trans (collectContent_rest_len ls) hm1)
        · split
          · exact ih m _ _ _
              (Nat.le_trans (List.length_tail ls ▸ Nat.sub_le ls.length 1) hn1)
              (Nat.le_trans (List.length_tail ls ▸ Nat.sub_le ls.length 1) hm1)
          · exact ih m _ _ _ hn1 hm1

theorem parseLoop_nil (cur : Option (List Char × List Char))
    (parts : List (List Char)) : parseLoop [] cur parts = parts ++ flushItem cur :=
  rfl

theorem parseLoop_cons_marker {l : List Char} (ls : List (List Char))
    (cur : Option (List Char × List Char)) (parts : List (List Char))
    (h : isValidMarker l = true) :
    parseLoop (l :: ls) cur parts =
      parseLoop (collectContent ls).2
        (some (l.drop 1, processContent (collectContent ls).1))
        (parts ++ flushItem cur) := by
  unfold parseLoop
  rw [List.length_cons, parseLoopF, if_pos h]
  exact parseLoopF_fuel_irrel _ _ _ _ _ (collectContent_rest_len ls) le_rfl

theorem parseLoop_cons_bang {l : List Char} (ls : List (List Char))
    (cur : Option (List Char × List Char)) (parts : List (List Char))
    (h : isValidMarker l = false) (hb : l.head? = some '!') :
    parseLoop (l :: ls) cur parts =
      parseLoop ls.tail (some (l.drop 1, chars "ERROR: " ++ ls.headD []))
        (parts ++ flushItem cur) := by
  unfold parseLoop
  rw [List.length_cons, parseLoopF, if_neg (by simp [h]), if_pos (by simp [hb])]
  exact parseLoopF_fuel_irrel _ _ _ _ _
    (List.length_tail ls ▸ Nat.sub_le ls.length 1) le_rfl

theorem parseLoop_cons_other {l : List Char} (ls : List (List Char))
    (cur : Option (List Char × List Char)) (parts : List (List Char))
    (h : isValidMarker l = false) (hb : l.head? ≠ some '!') :
    parseLoop (l :: ls) cur parts =
      parseLoop ls (cur.map (fun pc => (pc.1, pc.2 ++ '\n' :: l))) parts := by
  unfold parseLoop
  rw [List.length_cons, parseLoopF, if_neg (by simp [h]), if_neg (by simp [hb])]

/-- Parse a whole line list into the flat parts list, starting with no open
item and empty parts. -/
def parseParts (ls : List (List Char)) : List (List Char) :=
  parseLoop ls none []

/-! ### Base64 (standard alphabet), as used for binary file payloads -/

/-- The standard base64 alphabet of base64.b64encode. -/
def b64Alphabet : List Char :=
  chars "ABCDEFGHIJKLMNOPQRSTUVWXYZabcdefghijklmnopqrstuvwxyz0123456789+/"

/-- Digit-to-character map of base64. -/
def b64Char (n : Nat) : Char := b64Alphabet.getD n 'A'

/-- Character-to-digit map of base64. -/
def b64Digit (c : Char) : Nat := b64Alphabet.indexOf c

/-- base64.b64encode on bytes: groups of three bytes become four alphabet
characters; a final group of one or two bytes is padded with equals signs. -/
def b64encode : List Nat → List Char
  | [] => []
  | [a] => [b64Char (a / 4), b64Char (a % 4 * 16), '=', '=']
  | [a, b] => [b64Char (a / 4), b64Char (a % 4 * 16 + b / 16),
      b64Char (b % 16 * 4), '=']
  | a :: b :: c :: rest =>
    b64Char (a / 4) :: b64Char (a % 4 * 16 + b / 16) ::
      b64Char (b % 16 * 4 + c / 64) :: b64Char (c % 64) :: b64encode rest

/-- Grouped base64 decoding on cleaned input: four characters at a time, with
equals-sign padding allowed only at the very end; anything else fails. -/
def b64decodeGroups : List Char → Option (List Nat)
  | [] => some []
  | a :: b :: c :: d :: rest =>
    if a = '=' ∨ b = '=' then none
    else if c = '=' then
      if d = '=' ∧ rest = [] then some [b64Digit a * 4 + b64Digit b / 16]
      else none
    else if d = '=' then
      if rest = [] then
        some [b64Digit a * 4 + b64Digit b / 16,
          b64Digit b % 16 * 16 + b64Digit c / 4]
      else none
    else
      (b64decodeGroups rest).map (fun bs =>
        (b64Digit a * 4 + b64Digit b / 16) ::
          (b64Digit b % 16 * 16 + b64Digit c / 4) ::
          (b64Digit c % 4 * 64 + b64Digit d) :: bs)
  | _ => none

/-- base64.b64decode with default validation: characters outside the alphabet
and padding (such as newlines) are discarded before grouped decoding; failure
models the binascii error caught by the restore loop. -/
def b64decode (l : List Char) : Option (List Nat) :=
  b64decodeGroups (l.filter (fun c => b64Alphabet.contains c || c == '='))

/-! ### The uncompressed encoder (gather_files_to_txt, non-Windows branch) -/

/-- One walked tree node as the encoder sees it: an empty directory, a text
file given by its newline-split content lines, or a binary file given by its
bytes.  Text content corresponds to the Python string via split on newline,
so a content of n lines stands for the string intercalated with newlines. -/
inductive FsEntry where
  | dir (rel : List Char)
  | text (rel : List Char) (cs : List (List Char))
  | bin (rel : List Char) (bs : List Nat)
deriving DecidableEq

/-- Relative path of an entry. -/
def FsEntry.rel : FsEntry → List Char
  | .dir r => r
  | .text r _ => r
  | .bin r _ => r

/-- The lines a single entry contributes to the artifact body.  The encoder
(gather_files_to_txt lines 672-711) writes, for each entry, a record piece
of the form newline, at-sign header line, newline, payload, newline; for a
directory the payload line is the empty-directory tag followed by an extra
blank line, for a binary file a B line plus the base64 line plus an extra
blank line, for a text file the raw content.  Splitting the concatenation of
the pieces on newline, each piece except the last contributes exactly these
lines (the final piece additionally contributes one trailing empty line,
restored by gatherBodyLines). -/
def entryLines : FsEntry → List (List Char)
  | .dir rel => [[], '@' :: rel, chars "[EMPTY_DIRECTORY]", []]
  | .text rel cs => [[], '@' :: rel] ++ cs
  | .bin rel bs => [[], '@' :: rel, ['B'], b64encode bs, []]

/-- The newline-split of everything the encoder writes after the
UNCOMPRESSED header line. -/
def gatherBodyLines (T : List FsEntry) : List (List Char) :=
  (T.map entryLines).flatten ++ [[]]

/-- The full character content of the artifact file written by
gather_files_to_txt: the format header line, then the concatenated record
pieces. -/
def artifactChars (T : List FsEntry) : List Char :=
  chars "UNCOMPRESSED" ++ '\n' :: pyJoin '\n' (gatherBodyLines T)

/-! ### Parts lists always come in triples (groundwork for the corrupted
format check) -/

theorem flush_mod3 (parts : List (List Char))
    (cur : Option (List Char × List Char)) (h : parts.length % 3 = 0) :
    (parts ++ flushItem cur).length % 3 = 0 := by
  cases cur with
  | none => simpa [flushItem]
  | some pc => simp [flushItem, List.length_append, Nat.add_mod, h]

/-! ### Path sanitation (sanitize_file_path and helpers, non-Windows) -/

/-- Characters replaced by underscores (get_platform_info, non-Windows:
the Windows-invalid set plus the NUL character). -/
def invalidChars : List Char := ['<', '>', ':', '"', '|', '?', '*', '\x00']

/-- Collapse runs of underscores to a single underscore, as the regex
substitution in sanitize_filename does. -/
def collapseU : Option Char → List Char → List Char
  | _, [] => []
  | prev, c :: rest =>
    if c = '_' ∧ prev = some '_' then collapseU prev rest
    else c :: collapseU (some c) rest

/-- Python str.strip with an explicit character set. -/
def pyStripSet (set : List Char) (l : List Char) : List Char :=
  ((l.dropWhile (fun c => set.contains c)).reverse.dropWhile
    (fun c => set.contains c)).reverse

/-- Split a list at the last occurrence of a character: the part before it
and the part from it on (inclusive); none when the character is absent. -/
def splitAtLastOcc (c : Char) (l : List Char) :
    Option (List Char × List Char) :=
  (breakFirst c l.reverse).map (fun p => (p.2.reverse, c :: p.1.reverse))

/-- os.path.splitext: the extension starts at the last dot, provided that dot
lies inside the final path segment and the segment has a non-dot character
before it (so dotfiles have no extension). -/
def pySplitext (p : List Char) : List Char × List Char :=
  match splitAtLastOcc '.' p with
  | none => (p, [])
  | some pe =>
    if (pe.2.drop 1).contains '/' then (p, [])
    else
      let seg := match splitAtLastOcc '/' pe.1 with
        | none => pe.1
        | some ds => ds.2.drop 1
      if seg.any (fun c => c ≠ '.') then pe else (p, [])

/-- sanitize_filename (lines 2286-2330), non-Windows: replace invalid
characters by underscores, collapse runs of underscores, strip spaces and
dots from both ends (the reserved-name set is empty off Windows), default an
empty result, and cap the length at 200 keeping the extension. -/
def sanitize_filename (name : List Char) : List Char :=
  let s1 := name.map (fun c => if invalidChars.contains c then '_' else c)
  let s2 := collapseU none s1
  let s3 := pyStripSet [' ', '.'] s2
  let s4 := if s3.isEmpty then chars "unnamed_file" else s3
  if 200 < s4.length then
    let pe := pySplitext s4
    if 0 < 200 - pe.2.length then pe.1.take (200 - pe.2.length) ++ pe.2
    else pe.1.take 200
  else s4

/-- sanitize_file_path (lines 2424-2457), non-Windows: normalization is the
identity, the path is split into segments dropping empty and relative
segments, each segment is sanitized, and the result joined with the
separator is capped at the platform path-length limit of 4096. -/
def sanitize_file_path (p : List Char) : List Char :=
  let parts := (pySplit '/' p).filter
    (fun part => !(part.isEmpty || part == chars "." || part == chars ".."))
  let result := pyJoin '/' (parts.map sanitize_filename)
  if 4096 < result.length then
    if result.contains '.' then
      let pe := pySplitext result
      pe.1.take (4096 - pe.2.length - 10) ++ pe.2
    else result.take (4096 - 10)
  else result

/-! ### The restore phase -/

/-- Filesystem effects of a restore run, in order of execution.  mkparents
records the parent-directory creation of the file branch; backup records
backup_existing_file on a pre-existing target (copying it into the
timestamped .snapshot_backups location). -/
inductive RAction where
  | mkdir (p : List Char)
  | mkparents (p : List Char)
  | backup (p : List Char)
  | writeBin (p : List Char) (bs : List Nat)
  | writeText (p : List Char) (content : List Char)
deriving DecidableEq

/-- Path join of the destination folder and a sanitized relative path. -/
def joinPath (folder rel : List Char) : List Char := folder ++ '/' :: rel

/-- The restore loop of restore_files_from_txt (lines 1158-1240): for each
type, path, content triple, an empty-directory block creates the directory;
otherwise parent directories are ensured, a binary-tagged block is base64
decoded and written (the existing target backed up first), any other block is
written as text (the existing target backed up first).  A block whose base64
payload is missing or invalid is counted as an error and writes nothing; the
target list tracks paths created so far on top of the initially existing
ones, since os.path.exists consults the live filesystem. -/
def restoreTxtLoop (folder : List Char) :
    List (List Char) → List (List Char) → List RAction
  | _t :: p :: c :: rest, existing =>
    let full := joinPath folder (sanitize_file_path p)
    if pyStrip c == chars "[EMPTY_DIRECTORY]" then
      RAction.mkdir full :: restoreTxtLoop folder rest (full :: existing)
    else
      RAction.mkparents full ::
      (if (chars "[BINARY_FILE_BASE64]").isPrefixOf (pyStrip c) then
        match breakFirst '\n' c with
        | none => restoreTxtLoop folder rest existing
        | some bd =>
          (if existing.contains full then [RAction.backup full] else []) ++
          (match b64decode bd.2 with
           | none => restoreTxtLoop folder rest (full :: existing)
           | some bs =>
             RAction.writeBin full bs ::
               restoreTxtLoop folder rest (full :: existing))
      else
        (if existing.contains full then [RAction.backup full] else []) ++
        RAction.writeText full c ::
          restoreTxtLoop folder rest (full :: existing))
  | _, _ => []

/-- The restore loop of restore_files_from_compressed_txt (lines 1485-1552):
identical branch structure, except that no existing-file check and no backup
is performed on either file branch. -/
def restoreCompLoop (folder : List Char) : List (List Char) → List RAction
  | _t :: p :: c :: rest =>
    let full := joinPath folder (sanitize_file_path p)
    if pyStrip c == chars "[EMPTY_DIRECTORY]" then
      RAction.mkdir full :: restoreCompLoop folder rest
    else
      RAction.mkparents full ::
      (if (chars "[BINARY_FILE_BASE64]").isPrefixOf (pyStrip c) then
        match breakFirst '\n' c with
        | none => restoreCompLoop folder rest
        | some bd =>
          match b64decode bd.2 with
          | none => restoreCompLoop folder rest
          | some bs => RAction.writeBin full bs :: restoreCompLoop folder rest
      else
        RAction.writeText full c :: restoreCompLoop folder rest)
  | _ => []

/-- A restored filesystem node. -/
inductive RNode where
  | dir
  | text (content : List Char)
  | bin (bs : List Nat)
deriving DecidableEq

/-- The tree of entries created by a run, read off its action list. -/
def restoredTree (acts : List RAction) : List (List Char × RNode) :=
  acts.filterMap (fun a =>
    match a with
    | .mkdir p => some (p, RNode.dir)
    | .writeText p c => some (p, RNode.text c)
    | .writeBin p bs => some (p, RNode.bin bs)
    | _ => none)

/-- Outcome of restore_files_from_txt. -/
inductive TxtResult where
  | oldFormatCompressed
  | oldFormatUncompressed
  | toCompressed
  | badFormat
  | indexCrash
  | corrupted
  | noBlocks
  | restored (parts : List (List Char)) (acts : List RAction)
deriving DecidableEq

/-- restore_files_from_txt (lines 1036-1257) applied to the character content
of the artifact file: the first line (as read by readline and stripped)
dispatches between old formats, the compressed restorer, and the uncompressed
parser; in the uncompressed branch the content after the first newline is
split into lines and parsed, a parts list of length not divisible by three or
with no blocks returns early, and otherwise the restore loop runs.
An artifact with no newline at all reaches the index-one access of
split applied to the full text and raises an uncaught IndexError, modelled
as indexCrash. -/
def restore_files_from_txt (folder txt : List Char)
    (existing : List (List Char)) : TxtResult :=
  let firstLine := pyStrip ((pySplit '\n' txt).headD [])
  if firstLine == chars "=== SNAPSHOT_FORMAT: COMPRESSED ===" then
    .oldFormatCompressed
  else if firstLine == chars "=== SNAPSHOT_FORMAT: UNCOMPRESSED ===" then
    .oldFormatUncompressed
  else if firstLine == chars "COMPRESSED" then .toCompressed
  else if firstLine == chars "UNCOMPRESSED" then
    match breakFirst '\n' txt with
    | none => .indexCrash
    | some fl =>
      let parts := parseParts (pySplit '\n' fl.2)
      if parts.length % 3 != 0 then .corrupted
      else if parts.length / 3 == 0 then .noBlocks
      else .restored parts (restoreTxtLoop folder parts existing)
  else .badFormat

theorem parseLoopF_mod3 (n : Nat) :
    ∀ ls cur parts, parts.length % 3 = 0 →
      (parseLoopF n ls cur parts).length % 3 = 0 := by
  induction n with
  | zero =>
    intro ls cur parts h
    cases ls <;> simpa [parseLoopF] using flush_mod3 parts cur h
  | succ n ih =>
    intro ls cur parts h
    cases ls with
    | nil => simpa [parseLoopF] using flush_mod3 parts cur h
    | cons l ls =>
      simp only [parseLoopF]
      split
      · exact ih _ _ _ (flush_mod3 parts cur h)
      · split
        · exact ih _ _ _ (flush_mod3 parts cur h)
        · exact ih _ _ _ h

/-! ### Lemmas about base64 -/

theorem getD_mem_or {α : Type} (l : List α) (n : Nat) (d : α) :
    l.getD n d ∈ l ∨ l.getD n d = d := by
  induction l generalizing n with
  | nil => right; simp [List.getD]
  | cons a l ih =>
    cases n with
    | zero => left; simp [List.getD]
    | succ n =>
      rcases ih n with h | h
      · left
        simpa [List.getD] using List.mem_cons_of_mem a (by simpa [List.getD] using h)
      · right
        simpa [List.getD] using h

theorem b64Char_mem (n : Nat) : b64Char n ∈ b64Alphabet := by
  unfold b64Char
  rcases getD_mem_or b64Alphabet n 'A' with h | h
  · exact h
  · rw [h]; decide

theorem b64Alphabet_props :
    ∀ c ∈ b64Alphabet, c ≠ '\n' ∧ c ≠ '@' ∧ c ≠ '!' ∧ c ≠ '=' ∧ c ≠ ':' := by
  decide

theorem b64Char_ne_pad (n : Nat) : b64Char n ≠ '=' :=
  (b64Alphabet_props _ (b64Char_mem n)).2.2.2.1

theorem b64Digit_Char : ∀ n < 64, b64Digit (b64Char n) = n := by decide

theorem b64encode_mem :
    ∀ (bs : List Nat), ∀ c ∈ b64encode bs, c ∈ b64Alphabet ∨ c = '='
  | [], c, h => absurd h (by simp [b64encode])
  | [a], c, h => by
    simp only [b64encode, List.mem_cons, List.not_mem_nil, or_false] at h
    rcases h with h | h | h | h <;> subst h
    · exact Or.inl (b64Char_mem _)
    · exact Or.inl (b64Char_mem _)
    · exact Or.inr rfl
    · exact Or.inr rfl
  | [a, b], c, h => by
    simp only [b64encode, List.mem_cons, List.not_mem_nil, or_false] at h
    rcases h with h | h | h | h <;> subst h
    · exact Or.inl (b64Char_mem _)
    · exact Or.inl (b64Char_mem _)
    · exact Or.inl (b64Char_mem _)
    · exact Or.inr rfl
  | a :: b :: d :: rest, c, h => by
    simp only [b64encode, List.mem_cons] at h
    rcases h with h | h | h | h | h
    · exact h ▸ Or.inl (b64Char_mem _)
    · exact h ▸ Or.inl (b64Char_mem _)
    · exact h ▸ Or.inl (b64Char_mem _)
    · exact h ▸ Or.inl (b64Char_mem _)
    · exact b64encode_mem rest c h

theorem b64encode_no_specials (bs : List Nat) :
    ∀ c ∈ b64encode bs, c ≠ '\n' ∧ c ≠ '@' ∧ c ≠ '!' := by
  intro c hc
  rcases b64encode_mem bs c hc with h | h
  · exact ⟨(b64Alphabet_props c h).1, (b64Alphabet_props c h).2.1,
      (b64Alphabet_props c h).2.2.1⟩
  · subst h; refine ⟨by decide, by decide, by decide⟩

theorem b64encode_filter (bs : List Nat) :
    (b64encode bs).filter (fun c => b64Alphabet.contains c || c == '=') =
      b64encode bs := by
  apply List.filter_eq_self.mpr
  intro c hc
  rcases b64encode_mem bs c hc with h | h
  · simp [List.contains, h]
  · simp [h]

theorem b64_roundtrip_groups :
    ∀ (bs : List Nat), (∀ b ∈ bs, b < 256) →
      b64decodeGroups (b64encode bs) = some bs
  | [], _ => rfl
  | [a], h => by
    have ha : a < 256 := h a (by simp)
    have h1 : a / 4 < 64 := by omega
    have h2 : a % 4 * 16 < 64 := by omega
    rw [b64encode, b64decodeGroups]
    rw [if_neg (by push_neg; exact ⟨b64Char_ne_pad _, b64Char_ne_pad _⟩)]
    rw [if_pos rfl, if_pos ⟨rfl, rfl⟩]
    rw [b64Digit_Char _ h1, b64Digit_Char _ h2]
    congr 1
    congr 1
    omega
  | [a, b], h => by
    have ha : a < 256 := h a (by simp)
    have hb : b < 256 := h b (by simp)
    have h1 : a / 4 < 64 := by omega
    have h2 : a % 4 * 16 + b / 16 < 64 := by omega
    have h3 : b % 16 * 4 < 64 := by omega
    rw [b64encode, b64decodeGroups]
    rw [if_neg (by push_neg; exact ⟨b64Char_ne_pad _, b64Char_ne_pad _⟩)]
    rw [if_neg (b64Char_ne_pad _), if_pos rfl, if_pos rfl]
    rw [b64Digit_Char _ h1, b64Digit_Char _ h2, b64Digit_Char _ h3]
    congr 1
    congr 1
    · omega
    · congr 1
      omega
  | a :: b :: d :: rest, h => by
    have ha : a < 256 := h a (by simp)
    have hb : b < 256 := h b (by simp)
    have hd : d < 256 := h d (by simp)
    have h1 : a / 4 < 64 := by omega
    have h2 : a % 4 * 16 + b / 16 < 64 := by omega
    have h3 : b % 16 * 4 + d / 64 < 64 := by omega
    have h4 : d % 64 < 64 := by omega
    have ih := b64_roundtrip_groups rest (fun x hx => h x (by simp [hx]))
    rw [b64encode, b64decodeGroups]
    rw [if_neg (by push_neg; exact ⟨b64Char_ne_pad _, b64Char_ne_pad _⟩)]
    rw [if_neg (b64Char_ne_pad _), if_neg (b64Char_ne_pad _)]
    rw [ih]
    simp only [Option.map_some']
    congr 1
    rw [b64Digit_Char _ h1, b64Digit_Char _ h2, b64Digit_Char _ h3,
      b64Digit_Char _ h4]
    congr 1
    · omega
    · congr 1
      · omega
      · congr 1
        omega

theorem b64decode_encode_pad (bs : List Nat) (pad : List Char)
    (hbs : ∀ b ∈ bs, b < 256)
    (hpad : ∀ c ∈ pad, (b64Alphabet.contains c || c == '=') = false) :
    b64decode (b64encode bs ++ pad) = some bs := by
  unfold b64decode
  rw [List.filter_append, b64encode_filter,
    List.filter_eq_nil_iff.mpr (by intro c hc; simpa using hpad c hc),
    List.append_nil]
  exact b64_roundtrip_groups bs hbs

/-! ### Lemmas about split, join, and strip -/

theorem pySplit_no_sep (sep : Char) :
    ∀ l : List Char, sep ∉ l → pySplit sep l = [l] := by
  intro l
  induction l with
  | nil => intro; rfl
  | cons c rest ih =>
    intro h
    have hc : ¬c = sep := fun e => h (e ▸ List.mem_cons_self c rest)
    have hrest : sep ∉ rest := fun e => h (List.mem_cons_of_mem c e)
    rw [pySplit, if_neg hc, ih hrest]

theorem pySplit_append (sep : Char) (a b : List Char) (h : sep ∉ a) :
    pySplit sep (a ++ sep :: b) = a :: pySplit sep b := by
  induction a with
  | nil => simp [pySplit]
  | cons c rest ih =>
    have hc : ¬c = sep := fun e => h (e ▸ List.mem_cons_self c rest)
    have hrest : sep ∉ rest := fun e => h (List.mem_cons_of_mem c e)
    rw [List.cons_append, pySplit, if_neg hc, ih hrest]

theorem pyJoin_cons (sep : Char) (a : List Char) (rest : List (List Char))
    (h : rest ≠ []) : pyJoin sep (a :: rest) = a ++ sep :: pyJoin sep rest := by
  cases rest with
  | nil => exact absurd rfl h
  | cons b t => rfl

theorem pySplit_pyJoin (sep : Char) :
    ∀ ls : List (List Char), ls ≠ [] → (∀ l ∈ ls, sep ∉ l) →
      pySplit sep (pyJoin sep ls) = ls := by
  intro ls
  induction ls with
  | nil => intro h; exact absurd rfl h
  | cons a rest ih =>
    intro _ hall
    cases rest with
    | nil => exact pySplit_no_sep sep a (hall a (by simp))
    | cons b t =>
      rw [pyJoin_cons sep a (b :: t) (by simp),
        pySplit_append sep a _ (hall a (by simp)),
        ih (by simp) (fun l hl => hall l (List.mem_cons_of_mem a hl))]

theorem breakFirst_no_sep (sep : Char) :
    ∀ l : List Char, sep ∉ l → breakFirst sep l = none := by
  intro l
  induction l with
  | nil => intro; rfl
  | cons c rest ih =>
    intro h
    have hc : ¬c = sep := fun e => h (e ▸ List.mem_cons_self c rest)
    have hrest : sep ∉ rest := fun e => h (List.mem_cons_of_mem c e)
    rw [breakFirst, if_neg hc, ih hrest, Option.map_none']

theorem breakFirst_append (sep : Char) (a b : List Char) (h : sep ∉ a) :
    breakFirst sep (a ++ sep :: b) = some (a, b) := by
  induction a with
  | nil => simp [breakFirst]
  | cons c rest ih =>
    have hc : ¬c = sep := fun e => h (e ▸ List.mem_cons_self c rest)
    have hrest : sep ∉ rest := fun e => h (List.mem_cons_of_mem c e)
    rw [List.cons_append, breakFirst, if_neg hc, ih hrest, Option.map_some']

theorem pyStripLeft_cons_of_not_ws (c : Char) (l : List Char)
    (h : pyWs.contains c = false) : pyStripLeft (c :: l) = c :: l := by
  unfold pyStripLeft
  rw [List.dropWhile_cons]
  simp only [h, Bool.false_eq_true, if_false]

theorem isEmpty_reverse (l : List Char) : l.reverse.isEmpty = l.isEmpty := by
  cases l with
  | nil => rfl
  | cons a t => simp [List.isEmpty_iff]

theorem pyStripRight_append (a x : List Char) :
    pyStripRight (a ++ x) =
      if (pyStripRight x).isEmpty then pyStripRight a
      else a ++ pyStripRight x := by
  unfold pyStripRight
  rw [List.reverse_append, List.dropWhile_append]
  have hrev : ∀ m : List Char, (m.reverse).isEmpty = m.isEmpty :=
    fun m => isEmpty_reverse m
  by_cases h : (List.dropWhile (fun c => pyWs.contains c) x.reverse).isEmpty
  · rw [if_pos h, if_pos (by rw [hrev]; exact h)]
  · rw [if_neg h, if_neg (by rw [hrev]; exact h), List.reverse_append,
      List.reverse_reverse]

/-! ### Safety predicates for round-trip contents -/

/-- A payload line that the collection loop will never treat as a record
boundary: it contains no newline, does not look like an error line, and if it
starts with an at-sign it is either just the at-sign or a css at-rule as
screened by the collection loop. -/
def safePayloadLine (l : List Char) : Bool :=
  !(l.contains '\n') && (l.head? != some '!') &&
  ((l.head? != some '@') || (l.drop 1).isEmpty ||
    startsWithAny cssPats (pyStrip (l.drop 1)))

/-- Safe text content: nonempty line list, all lines safe, not mistakable for
a binary or directory block either at the first line or after joining and
stripping. -/
def safeTextContent (cs : List (List Char)) : Bool :=
  !cs.isEmpty && cs.all safePayloadLine &&
  (cs.head? != some (chars "B")) &&
  (cs.head? != some (chars "[EMPTY_DIRECTORY]")) &&
  (pyStrip (pyJoin '\n' cs) != chars "[EMPTY_DIRECTORY]") &&
  !(chars "[BINARY_FILE_BASE64]").isPrefixOf (pyStrip (pyJoin '\n' cs))

/-- A relative path that the decoder recognizes as a marker, that the
collection loop breaks on, and that path sanitation leaves unchanged. -/
def goodRel (rel : List Char) : Bool :=
  isValidMarker ('@' :: rel) && collectBreak ('@' :: rel) &&
  !(rel.contains '\n') && (sanitize_file_path rel == rel)

/-- Entries whose encode-decode round trip is exact. -/
def safeEntry : FsEntry → Bool
  | .dir rel => goodRel rel
  | .text rel cs => goodRel rel && safeTextContent cs
  | .bin rel bs => goodRel rel && bs.all (fun b => decide (b < 256))

theorem safePayloadLine_not_break {l : List Char}
    (h : safePayloadLine l = true) : collectBreak l = false := by
  unfold safePayloadLine at h
  unfold collectBreak
  simp only [Bool.and_eq_true, Bool.or_eq_true, Bool.not_eq_eq_eq_not,
    Bool.not_true, beq_iff_eq, bne_iff_ne] at h ⊢
  obtain ⟨⟨_, hbang⟩, hat⟩ := h
  have h1 : (l.head? == some '!') = false := by
    simpa using hbang
  rcases hat with (hh | he) | hc
  · have h2 : (l.head? == some '@') = false := by simpa using hh
    simp [h1, h2]
  · rw [List.drop_one] at he
    simp [h1, he]
  · rw [List.drop_one] at hc
    simp [h1, hc]

theorem collectContent_safe :
    ∀ (body rest : List (List Char)),
      (∀ l ∈ body, collectBreak l = false) →
      (∀ r rs, rest = r :: rs → collectBreak r = true) →
      collectContent (body ++ rest) = (body, rest) := by
  intro body
  induction body with
  | nil =>
    intro rest _ hr
    cases rest with
    | nil => rfl
    | cons r rs => simp [collectContent, hr r rs rfl]
  | cons l body ih =>
    intro rest hb hr
    have hl : collectBreak l = false := hb l (by simp)
    rw [List.cons_append, collectContent]
    rw [if_neg (by simp [hl])]
    rw [ih rest (fun x hx => hb x (List.mem_cons_of_mem l hx)) hr]

/-! ### Parsing an encoded stream recovers one triple per entry -/

/-- The payload lines of one entry (its record lines after the header line). -/
def entryCore : FsEntry → List (List Char)
  | .dir _ => [chars "[EMPTY_DIRECTORY]", []]
  | .text _ cs => cs
  | .bin _ bs => [['B'], b64encode bs, []]

theorem entryLines_eq (e : FsEntry) :
    entryLines e = [] :: ('@' :: e.rel) :: entryCore e := by
  cases e <;> rfl

/-- The artifact body lines with the single leading empty line removed. -/
def streamTail (T : List FsEntry) : List (List Char) :=
  (T.map (fun e => ('@' :: e.rel) :: (entryCore e ++ [[]]))).flatten

theorem gatherBody_eq (T : List FsEntry) :
    gatherBodyLines T = [] :: streamTail T := by
  induction T with
  | nil => rfl
  | cons e T ih =>
    show (entryLines e ++ (T.map entryLines).flatten) ++ [[]] = _
    rw [List.append_assoc]
    show entryLines e ++ gatherBodyLines T = _
    rw [ih, entryLines_eq e]
    simp [streamTail, List.append_assoc]

/-- The content slot that parsing produces for one entry. -/
def blockOf : FsEntry → List Char
  | .dir _ => chars "[EMPTY_DIRECTORY]"
  | .text _ cs => pyJoin '\n' cs
  | .bin _ bs =>
    chars "[BINARY_FILE_BASE64]" ++ '\n' :: (b64encode bs ++ ['\n', '\n'])

/-- The flat parts list that parsing an encoded stream produces. -/
def flatTriples (T : List FsEntry) : List (List Char) :=
  (T.map (fun e => [typeTag, e.rel, blockOf e])).flatten

theorem safeEntry_goodRel {e : FsEntry} (h : safeEntry e = true) :
    goodRel e.rel = true := by
  cases e with
  | dir rel => exact h
  | text rel cs => exact (Bool.and_eq_true_iff.mp h).1
  | bin rel bs => exact (Bool.and_eq_true_iff.mp h).1

theorem goodRel_marker {rel : List Char} (h : goodRel rel = true) :
    isValidMarker ('@' :: rel) = true :=
  (Bool.and_eq_true_iff.mp
    (Bool.and_eq_true_iff.mp (Bool.and_eq_true_iff.mp h).1).1).1

theorem goodRel_break {rel : List Char} (h : goodRel rel = true) :
    collectBreak ('@' :: rel) = true :=
  (Bool.and_eq_true_iff.mp
    (Bool.and_eq_true_iff.mp (Bool.and_eq_true_iff.mp h).1).1).2

theorem collectBreak_of_head {l : List Char}
    (h : ∀ c, l.head? = some c → c ≠ '@' ∧ c ≠ '!') :
    collectBreak l = false := by
  cases l with
  | nil => rfl
  | cons c t =>
    have hc := h c rfl
    simp [collectBreak, hc.1, hc.2]

theorem entryCore_break_free {e : FsEntry} (he : safeEntry e = true) :
    ∀ l ∈ entryCore e ++ [[]], collectBreak l = false := by
  intro l hl
  rcases List.mem_append.mp hl with hl | hl
  · cases e with
    | dir rel =>
      simp only [entryCore, List.mem_cons, List.not_mem_nil, or_false] at hl
      rcases hl with h | h <;> subst h <;> decide
    | text rel cs =>
      have hsafe : safeTextContent cs = true :=
        (Bool.and_eq_true_iff.mp he).2
      have hall : cs.all safePayloadLine = true :=
        (Bool.and_eq_true_iff.mp
          (Bool.and_eq_true_iff.mp (Bool.and_eq_true_iff.mp
            (Bool.and_eq_true_iff.mp (Bool.and_eq_true_iff.mp hsafe).1).1).1).1).2
      exact safePayloadLine_not_break (List.all_eq_true.mp hall l hl)
    | bin rel bs =>
      simp only [entryCore, List.mem_cons, List.not_mem_nil, or_false] at hl
      rcases hl with h | h | h
      · subst h; decide
      · subst h
        exact collectBreak_of_head (fun c hc => by
          have hmem : c ∈ b64encode bs := by
            cases hb : b64encode bs with
            | nil => rw [hb] at hc; cases hc
            | cons x t =>
              rw [hb] at hc
              simp only [List.head?_cons, Option.some.injEq] at hc
              simp [hb, ← hc]
          exact ⟨(b64encode_no_specials bs c hmem).2.1,
            (b64encode_no_specials bs c hmem).2.2⟩)
      · subst h; decide
  · simp only [List.mem_singleton] at hl
    subst hl; rfl

theorem streamTail_head_break {T : List FsEntry} (hT : T.all safeEntry = true) :
    ∀ r rs, streamTail T = r :: rs → collectBreak r = true := by
  intro r rs h
  cases T with
  | nil => simp [streamTail] at h
  | cons e T =>
    have he : safeEntry e = true := (List.all_cons .. ▸ hT |> Bool.and_eq_true_iff.mp).1
    have : streamTail (e :: T) =
        ('@' :: e.rel) :: ((entryCore e ++ [[]]) ++ streamTail T) := by
      simp [streamTail, List.append_assoc]
    rw [this] at h
    injection h with h1 _
    rw [← h1]
    exact goodRel_break (safeEntry_goodRel he)

theorem processContent_dir (rel : List Char) :
    processContent (entryCore (.dir rel) ++ [[]]) =
      chars "[EMPTY_DIRECTORY]" := by
  show processContent ([chars "[EMPTY_DIRECTORY]", []] ++ [[]]) =
    chars "[EMPTY_DIRECTORY]"
  decide

theorem processContent_text {cs : List (List Char)}
    (hne : cs ≠ []) (hB : cs.head? ≠ some (chars "B"))
    (hED : cs.head? ≠ some (chars "[EMPTY_DIRECTORY]")) :
    processContent (cs ++ [[]]) = pyJoin '\n' cs := by
  have hhead : (cs ++ [[]]).head? = cs.head? := by
    cases cs with
    | nil => exact absurd rfl hne
    | cons a t => rfl
  unfold processContent
  rw [if_neg (by simp [hhead, hB]), if_neg (by simp [hhead, hED])]
  unfold dropTrailingEmpty
  rw [if_pos ⟨by simp, by simp [List.getLast?_concat]⟩, List.dropLast_concat]

theorem processContent_bin (rel : List Char) (bs : List Nat) :
    processContent (entryCore (.bin rel bs) ++ [[]]) = blockOf (.bin rel bs) := by
  show processContent (['B'] :: b64encode bs :: [[], []]) = _
  unfold processContent
  rw [if_pos (by rfl)]
  simp [blockOf, pyJoin]

theorem processContent_entry {e : FsEntry} (he : safeEntry e = true) :
    processContent (entryCore e ++ [[]]) = blockOf e := by
  cases e with
  | dir rel => exact processContent_dir rel
  | text rel cs =>
    have hsafe : safeTextContent cs = true := (Bool.and_eq_true_iff.mp he).2
    have h1 := Bool.and_eq_true_iff.mp hsafe
    have h2 := Bool.and_eq_true_iff.mp h1.1
    have h3 := Bool.and_eq_true_iff.mp h2.1
    have h4 := Bool.and_eq_true_iff.mp h3.1
    have h5 := Bool.and_eq_true_iff.mp h4.1
    have hne : cs ≠ [] := by
      have := h5.1
      simpa [List.isEmpty_iff] using this
    have hB : cs.head? ≠ some (chars "B") := by simpa using h4.2
    have hED : cs.head? ≠ some (chars "[EMPTY_DIRECTORY]") := by simpa using h3.2
    exact processContent_text hne hB hED
  | bin rel bs => exact processContent_bin rel bs

theorem parseLoop_streamTail :
    ∀ (T : List FsEntry), T.all safeEntry = true →
      ∀ cur parts, parseLoop (streamTail T) cur parts =
        parts ++ flushItem cur ++ flatTriples T := by
  intro T
  induction T with
  | nil =>
    intro _ cur parts
    simp [streamTail, flatTriples, parseLoop_nil]
  | cons e T ih =>
    intro hall cur parts
    have hpair := Bool.and_eq_true_iff.mp (List.all_cons .. ▸ hall)
    have he : safeEntry e = true := hpair.1
    have hT : T.all safeEntry = true := hpair.2
    have hst : streamTail (e :: T) =
        ('@' :: e.rel) :: ((entryCore e ++ [[]]) ++ streamTail T) := by
      simp [streamTail, List.append_assoc]
    rw [hst, parseLoop_cons_marker _ _ _ (goodRel_marker (safeEntry_goodRel he)),
      collectContent_safe _ _ (entryCore_break_free he) (streamTail_head_break hT)]
    show parseLoop (streamTail T)
      (some ((('@' :: e.rel).drop 1), processContent (entryCore e ++ [[]])))
      (parts ++ flushItem cur) = _
    have hdrop : ('@' :: e.rel).drop 1 = e.rel := by simp
    rw [hdrop, processContent_entry he, ih hT]
    show parts ++ flushItem cur ++ [typeTag, e.rel, blockOf e] ++ flatTriples T = _
    have : flatTriples (e :: T) = [typeTag, e.rel, blockOf e] ++ flatTriples T := by
      simp [flatTriples]
    rw [this, List.append_assoc (parts ++ flushItem cur)]

theorem parseParts_gather (T : List FsEntry) (hall : T.all safeEntry = true) :
    parseParts (gatherBodyLines T) = flatTriples T := by
  rw [gatherBody_eq]
  unfold parseParts
  rw [parseLoop_cons_other _ _ _ (by decide) (by decide)]
  show parseLoop (streamTail T) none [] = _
  rw [parseLoop_streamTail T hall]
  rfl

/-! ### The restore phase recreates the encoded tree -/

/-- The node a faithful restore should produce for an entry. -/
def idealNode : FsEntry → RNode
  | .dir _ => .dir
  | .text _ cs => .text (pyJoin '\n' cs)
  | .bin _ bs => .bin bs

/-- The tree a faithful restore should produce. -/
def idealTree (folder : List Char) (T : List FsEntry) :
    List (List Char × RNode) :=
  T.map (fun e => (joinPath folder e.rel, idealNode e))

theorem isPrefixOf_append_self (l y : List Char) :
    l.isPrefixOf (l ++ y) = true := by
  simp [List.isPrefixOf_iff_prefix]

theorem pyStrip_binBlock (x : List Char) :
    ∃ y, pyStrip (chars "[BINARY_FILE_BASE64]" ++ x) =
      chars "[BINARY_FILE_BASE64]" ++ y := by
  unfold pyStrip
  have h1 : pyStripLeft (chars "[BINARY_FILE_BASE64]" ++ x) =
      chars "[BINARY_FILE_BASE64]" ++ x := by
    show pyStripLeft ('[' :: (chars "BINARY_FILE_BASE64]" ++ x)) = _
    rw [pyStripLeft_cons_of_not_ws _ _ (by decide)]
    rfl
  rw [h1, pyStripRight_append]
  by_cases h : (pyStripRight x).isEmpty
  · rw [if_pos h]
    exact ⟨[], by rw [List.append_nil]; decide⟩
  · rw [if_neg h]
    exact ⟨pyStripRight x, rfl⟩

theorem binBlock_ne_ed (x : List Char) :
    (pyStrip (chars "[BINARY_FILE_BASE64]" ++ x) ==
      chars "[EMPTY_DIRECTORY]") = false := by
  obtain ⟨y, hy⟩ := pyStrip_binBlock x
  rw [hy]
  apply beq_eq_false_iff_ne.mpr
  intro heq
  have hlen := congrArg List.length heq
  rw [List.length_append] at hlen
  have h1 : (chars "[BINARY_FILE_BASE64]").length = 20 := by decide
  have h2 : (chars "[EMPTY_DIRECTORY]").length = 17 := by decide
  rw [h1, h2] at hlen
  omega

theorem binBlock_is_bin (x : List Char) :
    (chars "[BINARY_FILE_BASE64]").isPrefixOf
      (pyStrip (chars "[BINARY_FILE_BASE64]" ++ x)) = true := by
  obtain ⟨y, hy⟩ := pyStrip_binBlock x
  rw [hy]
  exact isPrefixOf_append_self _ y

theorem goodRel_sanitize {rel : List Char} (h : goodRel rel = true) :
    sanitize_file_path rel = rel := by
  have := (Bool.and_eq_true_iff.mp h).2
  exact eq_of_beq this

theorem restoredTree_backup_pre (b : Bool) (p : List Char) (acts : List RAction) :
    restoredTree ((if b then [RAction.backup p] else []) ++ acts) =
      restoredTree acts := by
  cases b <;> simp [restoredTree]

theorem restoredTree_mkdir (p : List Char) (acts : List RAction) :
    restoredTree (RAction.mkdir p :: acts) = (p, RNode.dir) :: restoredTree acts := by
  simp [restoredTree]

theorem restoredTree_mkparents (p : List Char) (acts : List RAction) :
    restoredTree (RAction.mkparents p :: acts) = restoredTree acts := by
  simp [restoredTree]

theorem restoredTree_writeText (p c : List Char) (acts : List RAction) :
    restoredTree (RAction.writeText p c :: acts) =
      (p, RNode.text c) :: restoredTree acts := by
  simp [restoredTree]

theorem restoredTree_writeBin (p : List Char) (bs : List Nat)
    (acts : List RAction) :
    restoredTree (RAction.writeBin p bs :: acts) =
      (p, RNode.bin bs) :: restoredTree acts := by
  simp [restoredTree]

theorem restoreTxt_flatTriples (folder : List Char) :
    ∀ (T : List FsEntry) (ex : List (List Char)), T.all safeEntry = true →
      restoredTree (restoreTxtLoop folder (flatTriples T) ex) =
        idealTree folder T := by
  intro T
  induction T with
  | nil => intro ex _; rfl
  | cons e T ih =>
    intro ex hall
    have hpair := Bool.and_eq_true_iff.mp (List.all_cons .. ▸ hall)
    have he : safeEntry e = true := hpair.1
    have hT : T.all safeEntry = true := hpair.2
    have hsan : sanitize_file_path e.rel = e.rel :=
      goodRel_sanitize (safeEntry_goodRel he)
    cases e with
    | dir rel =>
      simp only [FsEntry.rel] at hsan
      have hflat : flatTriples (.dir rel :: T) =
          typeTag :: rel :: chars "[EMPTY_DIRECTORY]" :: flatTriples T := by
        simp [flatTriples, FsEntry.rel, blockOf]
      rw [hflat]
      simp only [restoreTxtLoop]
      rw [if_pos (by decide :
        (pyStrip (chars "[EMPTY_DIRECTORY]") == chars "[EMPTY_DIRECTORY]") = true)]
      rw [restoredTree_mkdir, hsan, ih _ hT]
      simp [idealTree, idealNode, FsEntry.rel]
    | text rel cs =>
      simp only [FsEntry.rel] at hsan
      have hsafe : safeTextContent cs = true := (Bool.and_eq_true_iff.mp he).2
      have h1 := Bool.and_eq_true_iff.mp hsafe
      have h2 := Bool.and_eq_true_iff.mp h1.1
      have hned : (pyStrip (pyJoin '\n' cs) == chars "[EMPTY_DIRECTORY]") = false := by
        have := h2.2
        simpa using this
      have hnbin : (chars "[BINARY_FILE_BASE64]").isPrefixOf
          (pyStrip (pyJoin '\n' cs)) = false := by
        have := h1.2
        simpa using this
      have hflat : flatTriples (.text rel cs :: T) =
          typeTag :: rel :: pyJoin '\n' cs :: flatTriples T := by
        simp [flatTriples, FsEntry.rel, blockOf]
      rw [hflat]
      simp only [restoreTxtLoop, hned, hnbin, Bool.false_eq_true, if_false]
      rw [restoredTree_mkparents, restoredTree_backup_pre, restoredTree_writeText,
        hsan, ih _ hT]
      simp [idealTree, idealNode, FsEntry.rel]
    | bin rel bs =>
      simp only [FsEntry.rel] at hsan
      have hbounds : ∀ b ∈ bs, b < 256 := by
        have := (Bool.and_eq_true_iff.mp he).2
        intro b hb
        have := List.all_eq_true.mp this b hb
        simpa using this
      have hbf : breakFirst '\n'
          (chars "[BINARY_FILE_BASE64]" ++ '\n' :: (b64encode bs ++ ['\n', '\n'])) =
          some (chars "[BINARY_FILE_BASE64]", b64encode bs ++ ['\n', '\n']) :=
        breakFirst_append '\n' _ _ (by decide)
      have hdec : b64decode (b64encode bs ++ ['\n', '\n']) = some bs :=
        b64decode_encode_pad bs ['\n', '\n'] hbounds (by decide)
      have hflat : flatTriples (.bin rel bs :: T) =
          typeTag :: rel ::
            (chars "[BINARY_FILE_BASE64]" ++ '\n' :: (b64encode bs ++ ['\n', '\n'])) ::
            flatTriples T := by
        simp [flatTriples, FsEntry.rel, blockOf]
      rw [hflat]
      simp only [restoreTxtLoop, binBlock_ne_ed, binBlock_is_bin,
        Bool.false_eq_true, if_false, if_true, hbf, hdec]
      rw [restoredTree_mkparents, restoredTree_backup_pre, restoredTree_writeBin,
        hsan, ih _ hT]
      simp [idealTree, idealNode, FsEntry.rel]

/-! ### The full uncompressed round trip -/

theorem goodRel_no_nl {rel : List Char} (h : goodRel rel = true) :
    '\n' ∉ rel := by
  have := (Bool.and_eq_true_iff.mp (Bool.and_eq_true_iff.mp h).1).2
  simpa using this

theorem safePayloadLine_no_nl {l : List Char} (h : safePayloadLine l = true) :
    '\n' ∉ l := by
  have := (Bool.and_eq_true_iff.mp (Bool.and_eq_true_iff.mp h).1).1
  simpa using this

theorem safeText_lines {cs : List (List Char)} (h : safeTextContent cs = true) :
    ∀ l ∈ cs, safePayloadLine l = true := by
  have := (Bool.and_eq_true_iff.mp
    (Bool.and_eq_true_iff.mp (Bool.and_eq_true_iff.mp
      (Bool.and_eq_true_iff.mp (Bool.and_eq_true_iff.mp h).1).1).1).1).2
  exact List.all_eq_true.mp this

theorem gatherBody_no_nl {T : List FsEntry} (hall : T.all safeEntry = true) :
    ∀ l ∈ gatherBodyLines T, '\n' ∉ l := by
  intro l hl
  unfold gatherBodyLines at hl
  rcases List.mem_append.mp hl with hl | hl
  · obtain ⟨ls, hls, hmem⟩ := List.mem_flatten.mp hl
    obtain ⟨e, heT, rfl⟩ := List.mem_map.mp hls
    have he : safeEntry e = true := List.all_eq_true.mp hall e heT
    rw [entryLines_eq] at hmem
    rcases List.mem_cons.mp hmem with rfl | hmem
    · simp
    rcases List.mem_cons.mp hmem with rfl | hmem
    · intro hc
      rcases List.mem_cons.mp hc with hc | hc
      · cases hc
      · exact goodRel_no_nl (safeEntry_goodRel he) hc
    · cases e with
      | dir rel =>
        simp only [entryCore, List.mem_cons, List.not_mem_nil, or_false] at hmem
        rcases hmem with rfl | rfl <;> decide
      | text rel cs =>
        exact safePayloadLine_no_nl
          (safeText_lines (Bool.and_eq_true_iff.mp he).2 l hmem)
      | bin rel bs =>
        simp only [entryCore, List.mem_cons, List.not_mem_nil, or_false] at hmem
        rcases hmem with rfl | rfl | rfl
        · decide
        · intro hc
          exact absurd rfl (b64encode_no_specials bs '\n' hc).1
        · decide
  · simp only [List.mem_singleton] at hl
    subst hl
    simp

theorem gatherBody_ne_nil (T : List FsEntry) : gatherBodyLines T ≠ [] := by
  unfold gatherBodyLines
  simp

theorem flatTriples_length (T : List FsEntry) :
    (flatTriples T).length = 3 * T.length := by
  induction T with
  | nil => rfl
  | cons e T ih =>
    have h : flatTriples (e :: T) = [typeTag, e.rel, blockOf e] ++ flatTriples T := by
      simp [flatTriples]
    rw [h, List.length_append, ih]
    simp only [List.length_cons, List.length_nil]
    omega

/-- The round-trip core theorem: restoring an encoded artifact of safe
entries into an empty destination parses exactly one triple per entry and
recreates exactly the encoded tree. -/
theorem restore_gather (folder : List Char) (T : List FsEntry)
    (hall : T.all safeEntry = true) (hne : T ≠ []) :
    restore_files_from_txt folder (artifactChars T) [] =
      .restored (flatTriples T) (restoreTxtLoop folder (flatTriples T) []) ∧
    restoredTree (restoreTxtLoop folder (flatTriples T) []) =
      idealTree folder T := by
  constructor
  · have hlen := flatTriples_length T
    have hmod : ((flatTriples T).length % 3 != 0) = false := by
      rw [hlen]
      simp [Nat.mul_mod_right]
    have hTlen : T.length ≠ 0 := by
      intro hz
      exact hne (List.length_eq_zero.mp hz)
    have hdiv : ((flatTriples T).length / 3 == 0) = false := by
      rw [hlen, Nat.mul_div_cancel_left _ (by norm_num : 0 < 3)]
      simpa using hTlen
    have h1 : pySplit '\n' (pyJoin '\n' (gatherBodyLines T)) = gatherBodyLines T :=
      pySplit_pyJoin '\n' _ (gatherBody_ne_nil T) (gatherBody_no_nl hall)
    unfold restore_files_from_txt artifactChars
    rw [pySplit_append '\n' _ _ (by decide), List.headD_cons]
    rw [if_neg (by decide), if_neg (by decide), if_neg (by decide),
      if_pos (by decide)]
    rw [breakFirst_append '\n' _ _ (by decide)]
    simp only [h1, parseParts_gather T hall, hmod, hdiv, Bool.false_eq_true,
      if_false]
  · exact restoreTxt_flatTriples folder T [] hall

/-- The tree created by a restore run, when one ran. -/
def restoredTreeOf : TxtResult → Option (List (List Char × RNode))
  | .restored _ acts => some (restoredTree acts)
  | _ => none

/-- C1, as stated, is false: a text file whose content is the single line
at-x is split by the decoder into two records (the content line passes the
full marker test), so the restored tree has two entries, losing the content;
this is not a trailing-newline deviation. -/
theorem claim_C1_counterexample :
    restoredTreeOf (restore_files_from_txt (chars "out")
        (artifactChars [.text (chars "f") [chars "@x"]]) []) =
      some [(chars "out/f", RNode.text []), (chars "out/x", RNode.text [])] ∧
    restoredTreeOf (restore_files_from_txt (chars "out")
        (artifactChars [.text (chars "f") [chars "@x"]]) []) ≠
      some [(chars "out/f", RNode.text (chars "@x"))] ∧
    restoredTreeOf (restore_files_from_txt (chars "out")
        (artifactChars [.text (chars "f") [chars "@x"]]) []) ≠
      some [(chars "out/f", RNode.text (chars "@x" ++ ['\n']))] := by
  refine ⟨by decide, by decide, by decide⟩

/-- C1 amended: for every nonempty tree of safe entries (relative paths that
the decoder recognizes and sanitation fixes, text contents none of whose
lines look like record boundaries or block tags, binary bytes below 256),
encoding with gather_files_to_txt and restoring with restore_files_from_txt
into an empty destination reconstructs the tree exactly (the trailing-newline
allowance is not even needed). -/
theorem claim_C1_roundtrip (folder : List Char) (T : List FsEntry)
    (hall : T.all safeEntry = true) (hne : T ≠ []) :
    restoredTreeOf (restore_files_from_txt folder (artifactChars T) []) =
      some (idealTree folder T) := by
  obtain ⟨h1, h2⟩ := restore_gather folder T hall hne
  rw [h1]
  simpa [restoredTreeOf] using h2

/-- Witness for C1: a tree with an empty directory, a text file, and a binary
file restores to exactly itself. -/
theorem claim_C1_roundtrip_witness :
    restoredTreeOf (restore_files_from_txt (chars "out")
        (artifactChars [.dir (chars "d"), .text (chars "a.txt") [chars "hello"],
          .bin (chars "b.bin") [1, 2, 3]]) []) =
      some [(chars "out/d", RNode.dir),
        (chars "out/a.txt", RNode.text (chars "hello")),
        (chars "out/b.bin", RNode.bin [1, 2, 3])] := by
  have h := claim_C1_roundtrip (chars "out")
    [.dir (chars "d"), .text (chars "a.txt") [chars "hello"],
      .bin (chars "b.bin") [1, 2, 3]] (by decide) (by decide)
  rw [h]
  decide

/-- C4, as stated, is false: a decorator-form look-alike line such as
at-staticmethod does act as a record boundary for the payload-collection
loop.  When it is the first content line the decoder closes the record with
empty content and then re-appends the remaining lines to it, prepending a
spurious newline, so the restored content differs from the original beyond
the trailing-newline allowance. -/
theorem claim_C4_counterexample :
    restoredTreeOf (restore_files_from_txt (chars "out")
        (artifactChars [.text (chars "f.txt")
          [chars "@staticmethod", chars "x"]]) []) =
      some [(chars "out/f.txt", RNode.text (chars "\n@staticmethod\nx\n"))] ∧
    chars "\n@staticmethod\nx\n" ≠ chars "@staticmethod\nx" ∧
    chars "\n@staticmethod\nx\n" ≠ chars "@staticmethod\nx" ++ ['\n'] := by
  refine ⟨by decide, by decide, by decide⟩

/-- C4 amended: the exclusion list that really protects content is the css
at-rule list of the collection loop (keyframes, media, import, charset,
font-face): a tree of safe entries in which some text file contains a line
beginning with such an at-rule round-trips exactly, the look-alike line being
treated as payload of the current record and never as a boundary. -/
theorem claim_C4_lookalike (folder : List Char) (T : List FsEntry)
    (hall : T.all safeEntry = true) (hne : T ≠ [])
    (_hlook : ∃ rel cs, FsEntry.text rel cs ∈ T ∧
      ∃ l ∈ cs, l.head? = some '@' ∧
        startsWithAny cssPats (pyStrip (l.drop 1)) = true) :
    restoredTreeOf (restore_files_from_txt folder (artifactChars T) []) =
      some (idealTree folder T) := by
  obtain ⟨h1, h2⟩ := restore_gather folder T hall hne
  rw [h1]
  simpa [restoredTreeOf] using h2

/-- Witness for C4: a style sheet containing an at-media line restores to
exactly itself. -/
theorem claim_C4_lookalike_witness :
    restoredTreeOf (restore_files_from_txt (chars "out")
        (artifactChars [.text (chars "s.css")
          [chars "body q", chars "@media print", chars "x"]]) []) =
      some [(chars "out/s.css",
        RNode.text (chars "body q" ++ '\n' :: chars "@media print" ++ '\n' ::
          chars "x"))] := by
  have h := claim_C4_lookalike (chars "out")
    [.text (chars "s.css") [chars "body q", chars "@media print", chars "x"]]
    (by decide) (by decide)
    ⟨chars "s.css", [chars "body q", chars "@media print", chars "x"],
      by decide, chars "@media print", by decide, by decide, by decide⟩
  rw [h]
  decide

/-! ### Backups: the uncompressed loop backs up, the compressed loop never -/

theorem restoreTxt_backup (folder : List Char) :
    ∀ (n : Nat) (parts ex : List (List Char)) (q : List Char),
      parts.length ≤ n → q ∈ ex →
      ((∃ c, RAction.writeText q c ∈ restoreTxtLoop folder parts ex) ∨
        (∃ bs, RAction.writeBin q bs ∈ restoreTxtLoop folder parts ex)) →
      RAction.backup q ∈ restoreTxtLoop folder parts ex := by
  intro n
  induction n with
  | zero =>
    intro parts ex q hlen hq hw
    have : parts = [] := List.length_eq_zero.mp (Nat.le_zero.mp hlen)
    subst this
    rcases hw with ⟨c, hc⟩ | ⟨bs, hb⟩ <;> simp [restoreTxtLoop] at *
  | succ n ih =>
    intro parts ex q hlen hq hw
    match parts, hlen with
    | [], _ =>
      rcases hw with ⟨c, hc⟩ | ⟨bs, hb⟩ <;> simp [restoreTxtLoop] at *
    | [a], _ =>
      rcases hw with ⟨c, hc⟩ | ⟨bs, hb⟩ <;> simp [restoreTxtLoop] at *
    | [a, b], _ =>
      rcases hw with ⟨c, hc⟩ | ⟨bs, hb⟩ <;> simp [restoreTxtLoop] at *
    | t :: p :: c :: rest, hlen =>
      have hlen3 : rest.length ≤ n := by
        simp only [List.length_cons] at hlen
        omega
      set full := joinPath folder (sanitize_file_path p) with hfull
      by_cases hdir : (pyStrip c == chars "[EMPTY_DIRECTORY]") = true
      · have hstep : restoreTxtLoop folder (t :: p :: c :: rest) ex =
            RAction.mkdir full :: restoreTxtLoop folder rest (full :: ex) := by
          simp only [restoreTxtLoop, hdir, if_true]
        rw [hstep] at hw ⊢
        have hw2 : (∃ c2, RAction.writeText q c2 ∈
              restoreTxtLoop folder rest (full :: ex)) ∨
            (∃ bs, RAction.writeBin q bs ∈
              restoreTxtLoop folder rest (full :: ex)) := by
          rcases hw with ⟨c2, hc2⟩ | ⟨bs, hb⟩
          · rcases List.mem_cons.mp hc2 with h | h
            · cases h
            · exact Or.inl ⟨c2, h⟩
          · rcases List.mem_cons.mp hb with h | h
            · cases h
            · exact Or.inr ⟨bs, h⟩
        exact List.mem_cons_of_mem _
          (ih rest (full :: ex) q hlen3 (List.mem_cons_of_mem _ hq) hw2)
      · by_cases hbin : ((chars "[BINARY_FILE_BASE64]").isPrefixOf (pyStrip c)) = true
        · cases hbf : breakFirst '\n' c with
          | none =>
            have hstep : restoreTxtLoop folder (t :: p :: c :: rest) ex =
                RAction.mkparents full :: restoreTxtLoop folder rest ex := by
              simp only [restoreTxtLoop, hdir, hbin, if_true, hbf]
              simp [hdir]
            rw [hstep] at hw ⊢
            have hw2 : (∃ c2, RAction.writeText q c2 ∈
                  restoreTxtLoop folder rest ex) ∨
                (∃ bs, RAction.writeBin q bs ∈ restoreTxtLoop folder rest ex) := by
              rcases hw with ⟨c2, hc2⟩ | ⟨bs, hb⟩
              · rcases List.mem_cons.mp hc2 with h | h
                · cases h
                · exact Or.inl ⟨c2, h⟩
              · rcases List.mem_cons.mp hb with h | h
                · cases h
                · exact Or.inr ⟨bs, h⟩
            exact List.mem_cons_of_mem _ (ih rest ex q hlen3 hq hw2)
          | some bd =>
            have hcontq : ex.contains full = true ∨ True := Or.inr trivial
            cases hdec : b64decode bd.2 with
            | none =>
              have hstep : restoreTxtLoop folder (t :: p :: c :: rest) ex =
                  RAction.mkparents full ::
                    ((if ex.contains full then [RAction.backup full] else []) ++
                      restoreTxtLoop folder rest (full :: ex)) := by
                simp only [restoreTxtLoop, hdir, hbin, if_true, hbf, hdec]
                simp [hdir]
              rw [hstep] at hw ⊢
              have hw2 : (∃ c2, RAction.writeText q c2 ∈
                    restoreTxtLoop folder rest (full :: ex)) ∨
                  (∃ bs, RAction.writeBin q bs ∈
                    restoreTxtLoop folder rest (full :: ex)) := by
                rcases hw with ⟨c2, hc2⟩ | ⟨bs, hb⟩
                · rcases List.mem_cons.mp hc2 with h | h
                  · cases h
                  · rcases List.mem_append.mp h with h | h
                    · by_cases hc : ex.contains full = true <;>
                        simp [hc] at h
                    · exact Or.inl ⟨c2, h⟩
                · rcases List.mem_cons.mp hb with h | h
                  · cases h
                  · rcases List.mem_append.mp h with h | h
                    · by_cases hc : ex.contains full = true <;>
                        simp [hc] at h
                    · exact Or.inr ⟨bs, h⟩
              refine List.mem_cons_of_mem _ (List.mem_append.mpr (Or.inr ?_))
              exact ih rest (full :: ex) q hlen3 (List.mem_cons_of_mem _ hq) hw2
            | some bs2 =>
              have hstep : restoreTxtLoop folder (t :: p :: c :: rest) ex =
                  RAction.mkparents full ::
                    ((if ex.contains full then [RAction.backup full] else []) ++
                      RAction.writeBin full bs2 ::
                        restoreTxtLoop folder rest (full :: ex)) := by
                simp only [restoreTxtLoop, hdir, hbin, if_true, hbf, hdec]
                simp [hdir]
              rw [hstep] at hw ⊢
              rcases hw with ⟨c2, hc2⟩ | ⟨bs3, hb⟩
              · rcases List.mem_cons.mp hc2 with h | h
                · cases h
                rcases List.mem_append.mp h with h | h
                · by_cases hc : ex.contains full = true <;> simp [hc] at h
                rcases List.mem_cons.mp h with h | h
                · cases h
                · refine List.mem_cons_of_mem _ (List.mem_append.mpr (Or.inr ?_))
                  refine List.mem_cons_of_mem _ ?_
                  exact ih rest (full :: ex) q hlen3
                    (List.mem_cons_of_mem _ hq) (Or.inl ⟨c2, h⟩)
              · rcases List.mem_cons.mp hb with h | h
                · cases h
                rcases List.mem_append.mp h with h | h
                · by_cases hc : ex.contains full = true <;> simp [hc] at h
                rcases List.mem_cons.mp h with h | h
                · injection h with h1 h2
                  subst h1
                  have hcont : ex.contains full = true := by simpa using hq
                  refine List.mem_cons_of_mem _ (List.mem_append.mpr (Or.inl ?_))
                  rw [if_pos hcont]
                  exact List.mem_singleton.mpr rfl
                · refine List.mem_cons_of_mem _ (List.mem_append.mpr (Or.inr ?_))
                  refine List.mem_cons_of_mem _ ?_
                  exact ih rest (full :: ex) q hlen3
                    (List.mem_cons_of_mem _ hq) (Or.inr ⟨bs3, h⟩)
        · have hstep : restoreTxtLoop folder (t :: p :: c :: rest) ex =
              RAction.mkparents full ::
                ((if ex.contains full then [RAction.backup full] else []) ++
                  RAction.writeText full c ::
                    restoreTxtLoop folder rest (full :: ex)) := by
            simp only [restoreTxtLoop, hdir, hbin, Bool.false_eq_true, if_false]
          rw [hstep] at hw ⊢
          rcases hw with ⟨c2, hc2⟩ | ⟨bs3, hb⟩
          · rcases List.mem_cons.mp hc2 with h | h
            · cases h
            rcases List.mem_append.mp h with h | h
            · by_cases hc : ex.contains full = true <;> simp [hc] at h
            rcases List.mem_cons.mp h with h | h
            · injection h with h1 h2
              subst h1
              have hcont : ex.contains full = true := by simpa using hq
              refine List.mem_cons_of_mem _ (List.mem_append.mpr (Or.inl ?_))
              rw [if_pos hcont]
              exact List.mem_singleton.mpr rfl
            · refine List.mem_cons_of_mem _ (List.mem_append.mpr (Or.inr ?_))
              refine List.mem_cons_of_mem _ ?_
              exact ih rest (full :: ex) q hlen3
                (List.mem_cons_of_mem _ hq) (Or.inl ⟨c2, h⟩)
          · rcases List.mem_cons.mp hb with h | h
            · cases h
            rcases List.mem_append.mp h with h | h
            · by_cases hc : ex.contains full = true <;> simp [hc] at h
            rcases List.mem_cons.mp h with h | h
            · cases h
            · refine List.mem_cons_of_mem _ (List.mem_append.mpr (Or.inr ?_))
              refine List.mem_cons_of_mem _ ?_
              exact ih rest (full :: ex) q hlen3
                (List.mem_cons_of_mem _ hq) (Or.inr ⟨bs3, h⟩)

theorem restoreComp_no_backup (folder : List Char) :
    ∀ (n : Nat) (parts : List (List Char)) (q : List Char),
      parts.length ≤ n →
      RAction.backup q ∉ restoreCompLoop folder parts := by
  intro n
  induction n with
  | zero =>
    intro parts q hlen
    have : parts = [] := List.length_eq_zero.mp (Nat.le_zero.mp hlen)
    subst this
    simp [restoreCompLoop]
  | succ n ih =>
    intro parts q hlen
    match parts, hlen with
    | [], _ => simp [restoreCompLoop]
    | [a], _ => simp [restoreCompLoop]
    | [a, b], _ => simp [restoreCompLoop]
    | t :: p :: c :: rest, hlen =>
      have hlen3 : rest.length ≤ n := by
        simp only [List.length_cons] at hlen
        omega
      intro hmem
      simp only [restoreCompLoop] at hmem
      split at hmem
      · rcases List.mem_cons.mp hmem with h | h
        · cases h
        · exact ih rest q hlen3 h
      · rcases List.mem_cons.mp hmem with h | h
        · cases h
        split at h
        · split at h
          · exact ih rest q hlen3 h
          · split at h
            · exact ih rest q hlen3 h
            · rcases List.mem_cons.mp h with h | h
              · cases h
              · exact ih rest q hlen3 h
        · rcases List.mem_cons.mp h with h | h
          · cases h
          · exact ih rest q hlen3 h

/-- C3, as stated, is false: the compressed restore loop overwrites an
existing file without ever producing a backup action (its code has no
existing-file check at all), here shown on a one-file parts list whose
target path exists. -/
theorem claim_C3_counterexample :
    RAction.writeText (chars "out/a.txt") (chars "hello") ∈
      restoreCompLoop (chars "out") [typeTag, chars "a.txt", chars "hello"] ∧
    RAction.backup (chars "out/a.txt") ∉
      restoreCompLoop (chars "out") [typeTag, chars "a.txt", chars "hello"] := by
  refine ⟨by decide, by decide⟩

/-- C3 amended: only the uncompressed restore loop backs up.  Whenever the
uncompressed loop writes a file whose target already existed before the run,
a backup action for that target is in its action list; the compressed loop
never emits a backup action at all. -/
theorem claim_C3_backup (folder : List Char) (parts ex : List (List Char))
    (q : List Char) (hq : q ∈ ex)
    (hw : (∃ c, RAction.writeText q c ∈ restoreTxtLoop folder parts ex) ∨
      (∃ bs, RAction.writeBin q bs ∈ restoreTxtLoop folder parts ex)) :
    RAction.backup q ∈ restoreTxtLoop folder parts ex ∧
    ∀ (folder2 : List Char) (parts2 : List (List Char)) (q2 : List Char),
      RAction.backup q2 ∉ restoreCompLoop folder2 parts2 :=
  ⟨restoreTxt_backup folder parts.length parts ex q le_rfl hq hw,
   fun folder2 parts2 q2 =>
     restoreComp_no_backup folder2 parts2.length parts2 q2 le_rfl⟩

/-- Witness for C3: restoring a one-file parts list over an existing target
produces a backup of it on the uncompressed path. -/
theorem claim_C3_backup_witness :
    RAction.backup (chars "out/a.txt") ∈
      restoreTxtLoop (chars "out")
        [typeTag, chars "a.txt", chars "hello"] [chars "out/a.txt"] ∧
    ∀ (folder2 : List Char) (parts2 : List (List Char)) (q2 : List Char),
      RAction.backup q2 ∉ restoreCompLoop folder2 parts2 :=
  claim_C3_backup (chars "out") [typeTag, chars "a.txt", chars "hello"]
    [chars "out/a.txt"] (chars "out/a.txt") (by decide)
    (Or.inl ⟨chars "hello", by decide⟩)

/-! ### Base85 (base64.b85encode and b85decode) -/

/-- The b85 alphabet of base64.b85encode, in order. -/
def b85Alphabet : List Char :=
  chars "0123456789ABCDEFGHIJKLMNOPQRSTUVWXYZabcdefghijklmnopqrstuvwxyz" ++
  chars "!#$%&()*+-;<=>?@^_" ++ ['\x60', '\x7b', '|', '\x7d', '~']

/-- Digit-to-character map of base85. -/
def b85Char (n : Nat) : Char := b85Alphabet.getD n '0'

/-- Character-to-digit map of base85 (85 chars; the tilde maps to 84). -/
def b85Digit (c : Char) : Nat := b85Alphabet.indexOf c

/-- base64.b85encode: groups of four bytes become a 32-bit big-endian value
written as five base85 digits; a final partial group of n bytes is padded
with zero bytes and only the first n plus one digits are kept. -/
def b85encode : List Nat → List Char
  | [] => []
  | [a] =>
    [b85Char (a * 16777216 / 52200625), b85Char (a * 16777216 / 614125 % 85)]
  | [a, b] =>
    [b85Char ((a * 16777216 + b * 65536) / 52200625),
     b85Char ((a * 16777216 + b * 65536) / 614125 % 85),
     b85Char ((a * 16777216 + b * 65536) / 7225 % 85)]
  | [a, b, c] =>
    [b85Char ((a * 16777216 + b * 65536 + c * 256) / 52200625),
     b85Char ((a * 16777216 + b * 65536 + c * 256) / 614125 % 85),
     b85Char ((a * 16777216 + b * 65536 + c * 256) / 7225 % 85),
     b85Char ((a * 16777216 + b * 65536 + c * 256) / 85 % 85)]
  | a :: b :: c :: d :: rest =>
    b85Char ((a * 16777216 + b * 65536 + c * 256 + d) / 52200625) ::
    b85Char ((a * 16777216 + b * 65536 + c * 256 + d) / 614125 % 85) ::
    b85Char ((a * 16777216 + b * 65536 + c * 256 + d) / 7225 % 85) ::
    b85Char ((a * 16777216 + b * 65536 + c * 256 + d) / 85 % 85) ::
    b85Char ((a * 16777216 + b * 65536 + c * 256 + d) % 85) ::
    b85encode rest

/-- The value of five base85 digits, most significant first. -/
def b85val5 (d1 d2 d3 d4 d5 : Nat) : Nat :=
  (((d1 * 85 + d2) * 85 + d3) * 85 + d4) * 85 + d5

/-- The four big-endian bytes of a 32-bit value. -/
def quad (v : Nat) : List Nat :=
  [v / 16777216, v / 65536 % 256, v / 256 % 256, v % 256]

/-- Grouped base85 decoding (after tilde padding): five digits reassemble a
value that must fit 32 bits (otherwise ValueError), written as four bytes. -/
def b85decodeChunks : List Char → Option (List Nat)
  | [] => some []
  | c1 :: c2 :: c3 :: c4 :: c5 :: rest =>
    if b85val5 (b85Digit c1) (b85Digit c2) (b85Digit c3) (b85Digit c4)
        (b85Digit c5) < 4294967296 then
      (b85decodeChunks rest).map (fun bs =>
        quad (b85val5 (b85Digit c1) (b85Digit c2) (b85Digit c3) (b85Digit c4)
          (b85Digit c5)) ++ bs)
    else none
  | _ => none

/-- base64.b85decode: a character outside the alphabet (newlines, spaces,
colons, non-ascii) raises ValueError, modelled as none.  Valid input is
padded to a multiple of five with tildes, decoded in chunks, and the bytes
introduced by the padding are dropped from the end. -/
def b85decode (l : List Char) : Option (List Nat) :=
  if l.all (fun c => b85Alphabet.contains c) then
    (b85decodeChunks (l ++ List.replicate ((5 - l.length % 5) % 5) '~')).map
      (fun bs => bs.take (bs.length - (5 - l.length % 5) % 5))
  else none

theorem b85Char_mem (n : Nat) : b85Char n ∈ b85Alphabet := by
  unfold b85Char
  rcases getD_mem_or b85Alphabet n '0' with h | h
  · exact h
  · rw [h]; decide

theorem b85Digit_Char : ∀ n < 85, b85Digit (b85Char n) = n := by decide

theorem b85Alphabet_props :
    ∀ c ∈ b85Alphabet, c ≠ '\n' ∧ c ≠ ':' := by decide

theorem b85encode_mem :
    ∀ (bs : List Nat), ∀ c ∈ b85encode bs, c ∈ b85Alphabet
  | [], c, h => absurd h (by simp [b85encode])
  | [a], c, h => by
    simp only [b85encode, List.mem_cons, List.not_mem_nil, or_false] at h
    rcases h with h | h <;> exact h ▸ b85Char_mem _
  | [a, b], c, h => by
    simp only [b85encode, List.mem_cons, List.not_mem_nil, or_false] at h
    rcases h with h | h | h <;> exact h ▸ b85Char_mem _
  | [a, b, c0], c, h => by
    simp only [b85encode, List.mem_cons, List.not_mem_nil, or_false] at h
    rcases h with h | h | h | h <;> exact h ▸ b85Char_mem _
  | a :: b :: c0 :: d :: rest, c, h => by
    simp only [b85encode, List.mem_cons] at h
    rcases h with h | h | h | h | h | h
    · exact h ▸ b85Char_mem _
    · exact h ▸ b85Char_mem _
    · exact h ▸ b85Char_mem _
    · exact h ▸ b85Char_mem _
    · exact h ▸ b85Char_mem _
    · exact b85encode_mem rest c h

theorem quad_len (v : Nat) : (quad v).length = 4 := rfl

theorem quad_eq (v a b c d : Nat) (hb : b < 256) (hc : c < 256)
    (hd : d < 256) (hv : v = a * 16777216 + b * 65536 + c * 256 + d) :
    quad v = [a, b, c, d] := by
  subst hv
  simp only [quad]
  congr 1
  · omega
  · congr 1
    · omega
    · congr 1
      · omega
      · congr 1
        omega

theorem quad_take2 (v a b : Nat) (hb : b < 256)
    (h1 : a * 16777216 + b * 65536 ≤ v)
    (h2 : v < a * 16777216 + b * 65536 + 65536) :
    (quad v).take 2 = [a, b] := by
  simp only [quad, List.take]
  congr 1
  · omega
  · congr 1
    omega

theorem quad_take3 (v a b c : Nat) (hb : b < 256) (hc : c < 256)
    (h1 : a * 16777216 + b * 65536 + c * 256 ≤ v)
    (h2 : v < a * 16777216 + b * 65536 + c * 256 + 256) :
    (quad v).take 3 = [a, b, c] := by
  simp only [quad, List.take]
  congr 1
  · omega
  · congr 1
    · omega
    · congr 1
      omega

theorem b85_round_aux :
    ∀ (bs : List Nat), (∀ x ∈ bs, x < 256) →
      ∃ res : List Nat,
        b85decodeChunks (b85encode bs ++
          List.replicate ((5 - (b85encode bs).length % 5) % 5) '~') = some res ∧
        res.length = bs.length + (5 - (b85encode bs).length % 5) % 5 ∧
        res.take (res.length - (5 - (b85encode bs).length % 5) % 5) = bs
  | [], _ => ⟨[], rfl, rfl, rfl⟩
  | [a], h => by
    have ha : a < 256 := h a (by simp)
    have e1 : b85Digit (b85Char (a * 16777216 / 52200625)) =
        a * 16777216 / 52200625 := b85Digit_Char _ (by omega)
    have e2 : b85Digit (b85Char (a * 16777216 / 614125 % 85)) =
        a * 16777216 / 614125 % 85 := b85Digit_Char _ (by omega)
    have e3 : b85Digit '~' = 84 := by decide
    have hd1 : a * 16777216 / 614125 / 85 = a * 16777216 / 52200625 := by
      rw [Nat.div_div_eq_div_mul]
    refine ⟨quad (b85val5 (a * 16777216 / 52200625)
      (a * 16777216 / 614125 % 85) 84 84 84), ?_, rfl, ?_⟩
    · show b85decodeChunks
        [b85Char (a * 16777216 / 52200625),
         b85Char (a * 16777216 / 614125 % 85), '~', '~', '~'] = _
      simp only [b85decodeChunks, e1, e2, e3]
      rw [if_pos (by simp only [b85val5]; omega)]
      simp only [b85decodeChunks, Option.map_some', List.append_nil]
    · show List.take 1 (quad _) = [a]
      show [b85val5 (a * 16777216 / 52200625)
        (a * 16777216 / 614125 % 85) 84 84 84 / 16777216] = [a]
      congr 1
      simp only [b85val5]
      omega
  | [a, b], h => by
    have ha : a < 256 := h a (by simp)
    have hb : b < 256 := h b (by simp)
    have e1 : b85Digit (b85Char ((a * 16777216 + b * 65536) / 52200625)) =
        (a * 16777216 + b * 65536) / 52200625 := b85Digit_Char _ (by omega)
    have e2 : b85Digit (b85Char ((a * 16777216 + b * 65536) / 614125 % 85)) =
        (a * 16777216 + b * 65536) / 614125 % 85 := b85Digit_Char _ (by omega)
    have e3 : b85Digit (b85Char ((a * 16777216 + b * 65536) / 7225 % 85)) =
        (a * 16777216 + b * 65536) / 7225 % 85 := b85Digit_Char _ (by omega)
    have e4 : b85Digit '~' = 84 := by decide
    have hd1 : (a * 16777216 + b * 65536) / 7225 / 85 =
        (a * 16777216 + b * 65536) / 614125 := by
      rw [Nat.div_div_eq_div_mul]
    have hd2 : (a * 16777216 + b * 65536) / 614125 / 85 =
        (a * 16777216 + b * 65536) / 52200625 := by
      rw [Nat.div_div_eq_div_mul]
    refine ⟨quad (b85val5 ((a * 16777216 + b * 65536) / 52200625)
      ((a * 16777216 + b * 65536) / 614125 % 85)
      ((a * 16777216 + b * 65536) / 7225 % 85) 84 84), ?_, rfl, ?_⟩
    · show b85decodeChunks
        [b85Char ((a * 16777216 + b * 65536) / 52200625),
         b85Char ((a * 16777216 + b * 65536) / 614125 % 85),
         b85Char ((a * 16777216 + b * 65536) / 7225 % 85), '~', '~'] = _
      simp only [b85decodeChunks, e1, e2, e3, e4]
      rw [if_pos (by simp only [b85val5]; omega)]
      simp only [b85decodeChunks, Option.map_some', List.append_nil]
    · show List.take 2 (quad (b85val5 ((a * 16777216 + b * 65536) / 52200625)
        ((a * 16777216 + b * 65536) / 614125 % 85)
        ((a * 16777216 + b * 65536) / 7225 % 85) 84 84)) = [a, b]
      refine quad_take2 _ a b hb ?_ ?_
      · simp only [b85val5]; omega
      · simp only [b85val5]; omega
  | [a, b, c], h => by
    have ha : a < 256 := h a (by simp)
    have hb : b < 256 := h b (by simp)
    have hc : c < 256 := h c (by simp)
    have e1 : b85Digit (b85Char
        ((a * 16777216 + b * 65536 + c * 256) / 52200625)) =
        (a * 16777216 + b * 65536 + c * 256) / 52200625 :=
      b85Digit_Char _ (by omega)
    have e2 : b85Digit (b85Char
        ((a * 16777216 + b * 65536 + c * 256) / 614125 % 85)) =
        (a * 16777216 + b * 65536 + c * 256) / 614125 % 85 :=
      b85Digit_Char _ (by omega)
    have e3 : b85Digit (b85Char
        ((a * 16777216 + b * 65536 + c * 256) / 7225 % 85)) =
        (a * 16777216 + b * 65536 + c * 256) / 7225 % 85 :=
      b85Digit_Char _ (by omega)
    have e4 : b85Digit (b85Char
        ((a * 16777216 + b * 65536 + c * 256) / 85 % 85)) =
        (a * 16777216 + b * 65536 + c * 256) / 85 % 85 :=
      b85Digit_Char _ (by omega)
    have e5 : b85Digit '~' = 84 := by decide
    have hd1 : (a * 16777216 + b * 65536 + c * 256) / 85 / 85 =
        (a * 16777216 + b * 65536 + c * 256) / 7225 := by
      rw [Nat.div_div_eq_div_mul]
    have hd2 : (a * 16777216 + b * 65536 + c * 256) / 7225 / 85 =
        (a * 16777216 + b * 65536 + c * 256) / 614125 := by
      rw [Nat.div_div_eq_div_mul]
    have hd3 : (a * 16777216 + b * 65536 + c * 256) / 614125 / 85 =
        (a * 16777216 + b * 65536 + c * 256) / 52200625 := by
      rw [Nat.div_div_eq_div_mul]
    refine ⟨quad (b85val5 ((a * 16777216 + b * 65536 + c * 256) / 52200625)
      ((a * 16777216 + b * 65536 + c * 256) / 614125 % 85)
      ((a * 16777216 + b * 65536 + c * 256) / 7225 % 85)
      ((a * 16777216 + b * 65536 + c * 256) / 85 % 85) 84), ?_, rfl, ?_⟩
    · show b85decodeChunks
        [b85Char ((a * 16777216 + b * 65536 + c * 256) / 52200625),
         b85Char ((a * 16777216 + b * 65536 + c * 256) / 614125 % 85),
         b85Char ((a * 16777216 + b * 65536 + c * 256) / 7225 % 85),
         b85Char ((a * 16777216 + b * 65536 + c * 256) / 85 % 85), '~'] = _
      simp only [b85decodeChunks, e1, e2, e3, e4, e5]
      rw [if_pos (by simp only [b85val5]; omega)]
      simp only [b85decodeChunks, Option.map_some', List.append_nil]
    · show List.take 3 (quad (b85val5
        ((a * 16777216 + b * 65536 + c * 256) / 52200625)
        ((a * 16777216 + b * 65536 + c * 256) / 614125 % 85)
        ((a * 16777216 + b * 65536 + c * 256) / 7225 % 85)
        ((a * 16777216 + b * 65536 + c * 256) / 85 % 85) 84)) = [a, b, c]
      refine quad_take3 _ a b c hb hc ?_ ?_
      · simp only [b85val5]; omega
      · simp only [b85val5]; omega
  | a :: b :: c :: d :: rest, h => by
    have ha : a < 256 := h a (by simp)
    have hb : b < 256 := h b (by simp)
    have hc : c < 256 := h c (by simp)
    have hd : d < 256 := h d (by simp)
    obtain ⟨res, hres, hlen, htake⟩ :=
      b85_round_aux rest (fun x hx => h x (by simp [hx]))
    have hlen5 : (b85encode (a :: b :: c :: d :: rest)).length =
        5 + (b85encode rest).length := by
      show (b85Char _ :: b85Char _ :: b85Char _ :: b85Char _ :: b85Char _ ::
        b85encode rest).length = 5 + (b85encode rest).length
      simp only [List.length_cons]
      omega
    have hP : (5 - (b85encode (a :: b :: c :: d :: rest)).length % 5) % 5 =
        (5 - (b85encode rest).length % 5) % 5 := by
      rw [hlen5]
      omega
    have e1 : b85Digit (b85Char
        ((a * 16777216 + b * 65536 + c * 256 + d) / 52200625)) =
        (a * 16777216 + b * 65536 + c * 256 + d) / 52200625 :=
      b85Digit_Char _ (by omega)
    have e2 : b85Digit (b85Char
        ((a * 16777216 + b * 65536 + c * 256 + d) / 614125 % 85)) =
        (a * 16777216 + b * 65536 + c * 256 + d) / 614125 % 85 :=
      b85Digit_Char _ (by omega)
    have e3 : b85Digit (b85Char
        ((a * 16777216 + b * 65536 + c * 256 + d) / 7225 % 85)) =
        (a * 16777216 + b * 65536 + c * 256 + d) / 7225 % 85 :=
      b85Digit_Char _ (by omega)
    have e4 : b85Digit (b85Char
        ((a * 16777216 + b * 65536 + c * 256 + d) / 85 % 85)) =
        (a * 16777216 + b * 65536 + c * 256 + d) / 85 % 85 :=
      b85Digit_Char _ (by omega)
    have e5 : b85Digit (b85Char
        ((a * 16777216 + b * 65536 + c * 256 + d) % 85)) =
        (a * 16777216 + b * 65536 + c * 256 + d) % 85 :=
      b85Digit_Char _ (by omega)
    have hd1 : (a * 16777216 + b * 65536 + c * 256 + d) / 85 / 85 =
        (a * 16777216 + b * 65536 + c * 256 + d) / 7225 := by
      rw [Nat.div_div_eq_div_mul]
    have hd2 : (a * 16777216 + b * 65536 + c * 256 + d) / 7225 / 85 =
        (a * 16777216 + b * 65536 + c * 256 + d) / 614125 := by
      rw [Nat.div_div_eq_div_mul]
    have hd3 : (a * 16777216 + b * 65536 + c * 256 + d) / 614125 / 85 =
        (a * 16777216 + b * 65536 + c * 256 + d) / 52200625 := by
      rw [Nat.div_div_eq_div_mul]
    have hvq : quad (b85val5
        ((a * 16777216 + b * 65536 + c * 256 + d) / 52200625)
        ((a * 16777216 + b * 65536 + c * 256 + d) / 614125 % 85)
        ((a * 16777216 + b * 65536 + c * 256 + d) / 7225 % 85)
        ((a * 16777216 + b * 65536 + c * 256 + d) / 85 % 85)
        ((a * 16777216 + b * 65536 + c * 256 + d) % 85)) = [a, b, c, d] :=
      quad_eq _ a b c d hb hc hd (by simp only [b85val5]; omega)
    refine ⟨quad (b85val5
        ((a * 16777216 + b * 65536 + c * 256 + d) / 52200625)
        ((a * 16777216 + b * 65536 + c * 256 + d) / 614125 % 85)
        ((a * 16777216 + b * 65536 + c * 256 + d) / 7225 % 85)
        ((a * 16777216 + b * 65536 + c * 256 + d) / 85 % 85)
        ((a * 16777216 + b * 65536 + c * 256 + d) % 85)) ++ res, ?_, ?_, ?_⟩
    · show b85decodeChunks
        (b85Char ((a * 16777216 + b * 65536 + c * 256 + d) / 52200625) ::
         b85Char ((a * 16777216 + b * 65536 + c * 256 + d) / 614125 % 85) ::
         b85Char ((a * 16777216 + b * 65536 + c * 256 + d) / 7225 % 85) ::
         b85Char ((a * 16777216 + b * 65536 + c * 256 + d) / 85 % 85) ::
         b85Char ((a * 16777216 + b * 65536 + c * 256 + d) % 85) ::
         (b85encode rest ++ List.replicate
           ((5 - (b85encode (a :: b :: c :: d :: rest)).length % 5) % 5) '~')) = _
      rw [hP]
      simp only [b85decodeChunks, e1, e2, e3, e4, e5]
      rw [if_pos (by simp only [b85val5]; omega), hres]
      simp only [Option.map_some']
    · rw [List.length_append, quad_len, hlen, hP]
      simp only [List.length_cons]
      omega
    · rw [hP, List.length_append, quad_len]
      have hple : (5 - (b85encode rest).length % 5) % 5 ≤ res.length := by
        omega
      have hcount : 4 + res.length - (5 - (b85encode rest).length % 5) % 5 =
          (quad (b85val5
            ((a * 16777216 + b * 65536 + c * 256 + d) / 52200625)
            ((a * 16777216 + b * 65536 + c * 256 + d) / 614125 % 85)
            ((a * 16777216 + b * 65536 + c * 256 + d) / 7225 % 85)
            ((a * 16777216 + b * 65536 + c * 256 + d) / 85 % 85)
            ((a * 16777216 + b * 65536 + c * 256 + d) % 85))).length +
          (res.length - (5 - (b85encode rest).length % 5) % 5) := by
        rw [quad_len]
        omega
      rw [hcount, List.take_append, htake, hvq]
      rfl

/-- Round trip of the base85 codec on byte lists: decode after encode is the
identity (ascii85 values always fit 32 bits for genuine bytes, and tilde
padding is stripped exactly). -/
theorem b85_roundtrip (bs : List Nat) (h : ∀ x ∈ bs, x < 256) :
    b85decode (b85encode bs) = some bs := by
  obtain ⟨res, hres, hlen, htake⟩ := b85_round_aux bs h
  unfold b85decode
  rw [if_pos, hres]
  · simp only [Option.map_some']
    rw [htake]
  · rw [List.all_eq_true]
    intro c hc
    have hm := b85encode_mem bs c hc
    simpa [List.contains, List.elem_iff] using hm

/-! ### Compression (compress_text, lines 1260-1331, non-Windows) -/

/-- Length in bytes of the utf-8 encoding of a string. -/
def utf8Len (t : List Char) : Nat := t.foldl (fun n c => n + c.utf8Size) 0

/-- The inner collection loop of reorganize_content_for_compression
(line 867): gather lines until one starts with an at-sign or a bang. -/
def reorgInner : List (List Char) → List (List Char) × List (List Char)
  | [] => ([], [])
  | l :: rest =>
    if l.head? = some '@' ∨ l.head? = some '!' then ([], l :: rest)
    else
      let pr := reorgInner rest
      (l :: pr.1, pr.2)

/-- Closing a section in reorganize_content_for_compression (lines 847-859):
a nonempty section with a nonempty path is wrapped as at-path, newline,
content, newline, and filed under binaries, directories or texts. -/
def reorgFlush (path : List Char) (current : List (List Char))
    (st : List (List Char) × List (List Char) × List (List Char)) :
    List (List Char) × List (List Char) × List (List Char) :=
  if current ≠ [] ∧ path ≠ [] then
    let sc := pyJoin '\n' current
    let full := '@' :: (path ++ '\n' :: (sc ++ ['\n']))
    if ['B', '\n'].isPrefixOf sc then (st.1, st.2.1, st.2.2 ++ [full])
    else if containsSub (chars "[EMPTY_DIRECTORY]") sc then
      (st.1 ++ [full], st.2.1, st.2.2)
    else (st.1, st.2.1 ++ [full], st.2.2)
  else st

/-- The scanning loop of reorganize_content_for_compression (lines 841-872),
with fuel: an at-line closes the previous section and opens a new one
collected by the inner loop; other lines outside a section are skipped.
One unit of fuel per iteration suffices because every iteration consumes at
least one line. -/
def reorgLoopF : Nat → List (List Char) → List Char → List (List Char) →
    (List (List Char) × List (List Char) × List (List Char)) →
    List (List Char) × List (List Char) × List (List Char)
  | 0, _, path, current, st => reorgFlush path current st
  | _ + 1, [], path, current, st => reorgFlush path current st
  | n + 1, l :: rest, path, current, st =>
    if l.head? = some '@' then
      let st1 := reorgFlush path current st
      let pr := reorgInner rest
      reorgLoopF n pr.2 (l.drop 1) pr.1 st1
    else reorgLoopF n rest path current st

/-- reorganize_content_for_compression (lines 829-887): sections are
regrouped as directories, then text files, then binary files, and
concatenated. -/
def reorganize_content_for_compression (text : List Char) : List Char :=
  let lines := pySplit '\n' text
  let st := reorgLoopF lines.length lines [] [] ([], [], [])
  (st.1 ++ st.2.1 ++ st.2.2).flatten

/-- External codecs of compress_text, as oracles on strings (the utf-8
encoding step is absorbed into the oracle): the three compressors of the
non-Windows algorithm list plus the small-file compressor, their byte-range
guarantees, and the decompressors they invert to. -/
structure CodecExt where
  lzma6 : List Char → Option (List Nat)
  lzma9e : List Char → Option (List Nat)
  bz2c9 : List Char → Option (List Nat)
  zlibc9 : List Char → Option (List Nat)
  lzmaD : List Nat → Option (List Char)
  bz2D : List Nat → Option (List Char)
  zlibD : List Nat → Option (List Char)
  lzma6_bytes : ∀ t bs, lzma6 t = some bs → ∀ x ∈ bs, x < 256
  lzma9e_bytes : ∀ t bs, lzma9e t = some bs → ∀ x ∈ bs, x < 256
  bz2_bytes : ∀ t bs, bz2c9 t = some bs → ∀ x ∈ bs, x < 256
  zlib_bytes : ∀ t bs, zlibc9 t = some bs → ∀ x ∈ bs, x < 256
  lzma6_inv : ∀ t bs, lzma6 t = some bs → lzmaD bs = some t
  lzma9e_inv : ∀ t bs, lzma9e t = some bs → lzmaD bs = some t
  bz2_inv : ∀ t bs, bz2c9 t = some bs → bz2D bs = some t
  zlib_inv : ∀ t bs, zlibc9 t = some bs → zlibD bs = some t

/-- The results list of compress_text in the non-Windows algorithm order
(lines 1308-1318): each codec that succeeds contributes its tag and
base85-encoded output. -/
def resultsList (E : CodecExt) (rb : List Char) :
    List (List Char × List Char) :=
  (match E.lzma9e rb with
   | some bs => [(chars "LZMA", b85encode bs)]
   | none => []) ++
  (match E.bz2c9 rb with
   | some bs => [(chars "BZ2", b85encode bs)]
   | none => []) ++
  (match E.zlibc9 rb with
   | some bs => [(chars "ZLIB", b85encode bs)]
   | none => [])

/-- Python min with a length key (line 1328): the first entry of minimal
encoded length. -/
def pickBest : List (List Char × List Char) → Option (List Char × List Char)
  | [] => none
  | x :: xs =>
    some (xs.foldl (fun b a => if a.2.length < b.2.length then a else b) x)

/-- compress_text (lines 1260-1331) on a non-Windows platform: inputs under
2048 utf-8 bytes take the fast path and return the base85 LZMA encoding with
no tag (or the raw text if the codec fails); larger inputs are reorganized,
tried against the three codecs, and the shortest tagged encoding is
returned, with the RAW tag as the all-fail fallback. -/
def compress_text (E : CodecExt) (text : List Char) : List Char :=
  if utf8Len text < 2048 then
    match E.lzma6 text with
    | some bs => b85encode bs
    | none => text
  else
    let rb := reorganize_content_for_compression text
    match pickBest (resultsList E rb) with
    | none => chars "RAW:" ++ text
    | some pr => pr.1 ++ ':' :: pr.2

/-- Outcome of the read-and-decompress stage of
restore_files_from_compressed_txt. -/
inductive CompOutcome where
  | badFormat
  | decompressFailed
  | unsupported (method : List Char)
  | decoded (t : List Char)
deriving DecidableEq

/-- The decompression stage of restore_files_from_compressed_txt (lines
1350-1396): the content splits at the first colon into method and data
(defaulting to LZMA when there is none), the data is base85-decoded before
any method dispatch (a failure there aborts even the RAW and unsupported
cases), and the method selects the decompressor, the chain ending in the
unsupported-method report. -/
def decompressStage (E : CodecExt) (content : List Char) : CompOutcome :=
  let md := match breakFirst ':' content with
    | some pr => pr
    | none => (chars "LZMA", content)
  match b85decode md.2 with
  | none => .decompressFailed
  | some compressed =>
    if md.1 = chars "LZMA" then
      match E.lzmaD compressed with
      | some t => .decoded t
      | none => .decompressFailed
    else if md.1 = chars "BZ2" then
      match E.bz2D compressed with
      | some t => .decoded t
      | none => .decompressFailed
    else if md.1 = chars "ZLIB" then
      match E.zlibD compressed with
      | some t => .decoded t
      | none => .decompressFailed
    else if md.1 = chars "RAW" then .decoded md.2
    else if md.1 = chars "LZMA_EXTREME" then
      match E.lzmaD compressed with
      | some t => .decoded t
      | none => .decompressFailed
    else if md.1 = chars "ZLIB_ULTRA" then
      match E.zlibD compressed with
      | some t => .decoded t
      | none => .decompressFailed
    else if md.1 = chars "BZ2_MAX" then
      match E.bz2D compressed with
      | some t => .decoded t
      | none => .decompressFailed
    else .unsupported md.1

/-- restore_files_from_compressed_txt up to the decompression stage: the
first line (readline, stripped) must be COMPRESSED, the remainder is the
compressed content. -/
def restore_files_from_compressed (E : CodecExt) (file : List Char) :
    CompOutcome :=
  let pr := match breakFirst '\n' file with
    | none => (file, ([] : List Char))
    | some q => q
  if pyStrip pr.1 = chars "COMPRESSED" then decompressStage E pr.2
  else .badFormat

/-- The filesystem actions of a whole restore_files_from_compressed_txt run:
every outcome before the restore loop returns with no actions; a decoded
stream is parsed by the same scanning loop as the uncompressed path (lines
1402-1475 repeat lines 1076-1135 verbatim) and restored without backups. -/
def restoreCompActions (E : CodecExt) (folder file : List Char) :
    List RAction :=
  match restore_files_from_compressed E file with
  | .decoded t =>
    let parts := parseParts (pySplit '\n' t)
    if parts.length % 3 != 0 then []
    else if parts.length / 3 == 0 then []
    else restoreCompLoop folder parts
  | _ => []

/-- The seven method tags recognized by the decompression dispatch. -/
def recognizedTags : List (List Char) :=
  [chars "LZMA", chars "BZ2", chars "ZLIB", chars "RAW",
   chars "LZMA_EXTREME", chars "ZLIB_ULTRA", chars "BZ2_MAX"]

/-- A concrete injective codec on ascii strings, standing in for the real
compressors in executable examples. -/
def asciiEnc (t : List Char) : Option (List Nat) :=
  if t.all (fun c => c.toNat < 128) then some (t.map Char.toNat) else none

/-- The matching decoder of asciiEnc. -/
def asciiDec (bs : List Nat) : Option (List Char) :=
  if bs.all (fun x => x < 128) then some (bs.map (fun x => Char.ofNat x))
  else none

theorem asciiEnc_bytes : ∀ t bs, asciiEnc t = some bs → ∀ x ∈ bs, x < 256 := by
  intro t bs h x hx
  unfold asciiEnc at h
  split at h
  · rename_i hall
    cases h
    rw [List.all_eq_true] at hall
    obtain ⟨c, hc, rfl⟩ := List.mem_map.mp hx
    have := hall c hc
    simp at this
    omega
  · cases h

theorem asciiEnc_inv : ∀ t bs, asciiEnc t = some bs → asciiDec bs = some t := by
  intro t bs h
  unfold asciiEnc at h
  split at h
  · rename_i hall
    cases h
    rw [List.all_eq_true] at hall
    unfold asciiDec
    rw [if_pos]
    · congr 1
      rw [List.map_map]
      have hmap : ∀ l : List Char, (∀ c ∈ l, c.toNat < 128) →
          l.map (Char.ofNat ∘ Char.toNat) = l := by
        intro l hl
        induction l with
        | nil => rfl
        | cons a t ih =>
          simp only [List.map_cons, Function.comp_apply, Char.ofNat_toNat]
          rw [ih (fun c hc => hl c (List.mem_cons_of_mem a hc))]
      exact hmap t (fun c hc => by simpa using hall c hc)
    · rw [List.all_eq_true]
      intro x hx
      obtain ⟨c, hc, rfl⟩ := List.mem_map.mp hx
      simpa using hall c hc
  · cases h

/-- An executable CodecExt instance built from the ascii codec, used for
concrete runs of compress_text and the decompression stage. -/
def asciiCodec : CodecExt where
  lzma6 := asciiEnc
  lzma9e := asciiEnc
  bz2c9 := asciiEnc
  zlibc9 := asciiEnc
  lzmaD := asciiDec
  bz2D := asciiDec
  zlibD := asciiDec
  lzma6_bytes := asciiEnc_bytes
  lzma9e_bytes := asciiEnc_bytes
  bz2_bytes := asciiEnc_bytes
  zlib_bytes := asciiEnc_bytes
  lzma6_inv := asciiEnc_inv
  lzma9e_inv := asciiEnc_inv
  bz2_inv := asciiEnc_inv
  zlib_inv := asciiEnc_inv

/-- A 2048-utf-8-byte text of four-byte characters and no at-lines: large
enough for the multi-algorithm path, and reorganized to the empty string. -/
def bigText : List Char := List.replicate 512 (Char.ofNat 131072)

theorem b85encode_no_colon (bs : List Nat) : ':' ∉ b85encode bs :=
  fun h => (b85Alphabet_props ':' (b85encode_mem bs ':' h)).2 rfl

theorem pickFold_mem :
    ∀ (xs : List (List Char × List Char)) (b : List Char × List Char),
      xs.foldl (fun b a => if a.2.length < b.2.length then a else b) b = b ∨
      xs.foldl (fun b a => if a.2.length < b.2.length then a else b) b ∈ xs := by
  intro xs
  induction xs with
  | nil => intro b; left; rfl
  | cons a t ih =>
    intro b
    simp only [List.foldl_cons]
    rcases ih (if a.2.length < b.2.length then a else b) with h | h
    · rw [h]
      split
      · right; exact List.mem_cons_self a t
      · left; rfl
    · right; exact List.mem_cons_of_mem a h

theorem pickBest_mem (l : List (List Char × List Char))
    (x : List Char × List Char) (h : pickBest l = some x) : x ∈ l := by
  cases l with
  | nil => cases h
  | cons a t =>
    simp only [pickBest, Option.some.injEq] at h
    rcases pickFold_mem t a with h2 | h2
    · rw [← h, h2]; exact List.mem_cons_self a t
    · rw [← h]; exact List.mem_cons_of_mem a h2

theorem resultsList_mem (E : CodecExt) (rb : List Char)
    (pr : List Char × List Char) (h : pr ∈ resultsList E rb) :
    (∃ bs, E.lzma9e rb = some bs ∧ pr = (chars "LZMA", b85encode bs)) ∨
    (∃ bs, E.bz2c9 rb = some bs ∧ pr = (chars "BZ2", b85encode bs)) ∨
    (∃ bs, E.zlibc9 rb = some bs ∧ pr = (chars "ZLIB", b85encode bs)) := by
  unfold resultsList at h
  rcases List.mem_append.mp h with h12 | h3
  · rcases List.mem_append.mp h12 with h1 | h2
    · left
      revert h1
      cases hL : E.lzma9e rb with
      | none => intro h1; cases h1
      | some bs => intro h1; exact ⟨bs, rfl, List.mem_singleton.mp h1⟩
    · right; left
      revert h2
      cases hB : E.bz2c9 rb with
      | none => intro h2; cases h2
      | some bs => intro h2; exact ⟨bs, rfl, List.mem_singleton.mp h2⟩
  · right; right
    revert h3
    cases hZ : E.zlibc9 rb with
    | none => intro h3; cases h3
    | some bs => intro h3; exact ⟨bs, rfl, List.mem_singleton.mp h3⟩

/-- C2, as stated, is false: on the multi-algorithm path compress_text
compresses the reorganized stream, not the stream itself, so decompression
returns the reorganized text.  Here a 2048-byte stream with no at-lines is
reorganized to the empty string, and the round trip through the decompression
stage yields empty content instead of the stream. -/
theorem claim_C2_counterexample :
    2048 ≤ utf8Len bigText ∧
    compress_text asciiCodec bigText = chars "LZMA:" ∧
    decompressStage asciiCodec (compress_text asciiCodec bigText) =
      CompOutcome.decoded [] ∧
    bigText ≠ [] :=
  ⟨by decide, by decide, by decide, by decide⟩

/-- C2 amended: the decompression stage inverts compress_text exactly on the
fast path (under 2048 utf-8 bytes, untagged LZMA output), and on the
multi-algorithm path it recovers precisely the reorganized stream, whichever
codec the length competition selected. -/
theorem claim_C2_roundtrip (E : CodecExt) (S : List Char) :
    (utf8Len S < 2048 → ∀ bs, E.lzma6 S = some bs →
      decompressStage E (compress_text E S) = CompOutcome.decoded S) ∧
    (2048 ≤ utf8Len S → ∀ pr,
      pickBest (resultsList E (reorganize_content_for_compression S)) =
        some pr →
      decompressStage E (compress_text E S) =
        CompOutcome.decoded (reorganize_content_for_compression S)) := by
  constructor
  · intro hlt bs hbs
    have hcomp : compress_text E S = b85encode bs := by
      unfold compress_text
      rw [if_pos hlt, hbs]
    have hbrk : breakFirst ':' (b85encode bs) = none :=
      breakFirst_no_sep ':' _ (b85encode_no_colon bs)
    have hdec : b85decode (b85encode bs) = some bs :=
      b85_roundtrip bs (E.lzma6_bytes S bs hbs)
    have hinv : E.lzmaD bs = some S := E.lzma6_inv S bs hbs
    rw [hcomp]
    simp only [decompressStage, hbrk, hdec, hinv, eq_self_iff_true, if_true]
  · intro hge pr hpick
    have hcomp : compress_text E S = pr.1 ++ ':' :: pr.2 := by
      simp only [compress_text]
      rw [if_neg (by omega), hpick]
    rcases resultsList_mem E _ pr (pickBest_mem _ pr hpick) with
      ⟨bs, hbs, rfl⟩ | ⟨bs, hbs, rfl⟩ | ⟨bs, hbs, rfl⟩
    · rw [hcomp]
      show decompressStage E (chars "LZMA" ++ ':' :: b85encode bs) = _
      have hbrk : breakFirst ':' (chars "LZMA" ++ ':' :: b85encode bs) =
          some (chars "LZMA", b85encode bs) :=
        breakFirst_append ':' _ _ (by decide)
      have hdec : b85decode (b85encode bs) = some bs :=
        b85_roundtrip bs (E.lzma9e_bytes _ bs hbs)
      have hinv : E.lzmaD bs = some (reorganize_content_for_compression S) :=
        E.lzma9e_inv _ bs hbs
      simp only [decompressStage, hbrk, hdec, hinv, eq_self_iff_true, if_true]
    · rw [hcomp]
      show decompressStage E (chars "BZ2" ++ ':' :: b85encode bs) = _
      have hbrk : breakFirst ':' (chars "BZ2" ++ ':' :: b85encode bs) =
          some (chars "BZ2", b85encode bs) :=
        breakFirst_append ':' _ _ (by decide)
      have hdec : b85decode (b85encode bs) = some bs :=
        b85_roundtrip bs (E.bz2_bytes _ bs hbs)
      have hinv : E.bz2D bs = some (reorganize_content_for_compression S) :=
        E.bz2_inv _ bs hbs
      have hne1 : ¬ (chars "BZ2" = chars "LZMA") := by decide
      simp only [decompressStage, hbrk, hdec, hinv, if_neg hne1,
        eq_self_iff_true, if_true]
    · rw [hcomp]
      show decompressStage E (chars "ZLIB" ++ ':' :: b85encode bs) = _
      have hbrk : breakFirst ':' (chars "ZLIB" ++ ':' :: b85encode bs) =
          some (chars "ZLIB", b85encode bs) :=
        breakFirst_append ':' _ _ (by decide)
      have hdec : b85decode (b85encode bs) = some bs :=
        b85_roundtrip bs (E.zlib_bytes _ bs hbs)
      have hinv : E.zlibD bs = some (reorganize_content_for_compression S) :=
        E.zlib_inv _ bs hbs
      have hne1 : ¬ (chars "ZLIB" = chars "LZMA") := by decide
      have hne2 : ¬ (chars "ZLIB" = chars "BZ2") := by decide
      simp only [decompressStage, hbrk, hdec, hinv, if_neg hne1, if_neg hne2,
        eq_self_iff_true, if_true]

/-- Witness for C2: the fast path round-trips a two-character ascii stream
through the concrete codec. -/
theorem claim_C2_roundtrip_witness :
    utf8Len (chars "hi") < 2048 ∧
    asciiCodec.lzma6 (chars "hi") = some [104, 105] ∧
    decompressStage asciiCodec (compress_text asciiCodec (chars "hi")) =
      CompOutcome.decoded (chars "hi") :=
  ⟨by decide, by decide,
   (claim_C2_roundtrip asciiCodec (chars "hi")).1 (by decide) [104, 105]
     (by decide)⟩

/-- C6, as stated, is false in its reporting half: base85 decoding runs
before the method dispatch, so an artifact whose unrecognized tag carries a
payload with a non-alphabet character (here a space) is reported as a
decompression failure, never as an unsupported method. -/
theorem claim_C6_counterexample :
    (chars "FOO") ∉ recognizedTags ∧
    restore_files_from_compressed asciiCodec
      (chars "COMPRESSED\nFOO:a b") = CompOutcome.decompressFailed :=
  ⟨by decide, by decide⟩

/-- C6 amended: an artifact with an unrecognized codec tag always returns
with no filesystem actions, but the unsupported-method report is produced
only when the payload survives base85 decoding; otherwise the run reports a
decompression failure. -/
theorem claim_C6_unsupported (E : CodecExt) (folder tag data file : List Char)
    (hfile : file = chars "COMPRESSED" ++ '\n' :: (tag ++ ':' :: data))
    (htag : ':' ∉ tag) (hrec : tag ∉ recognizedTags) :
    (b85decode data = none →
      restore_files_from_compressed E file = CompOutcome.decompressFailed) ∧
    (∀ bs, b85decode data = some bs →
      restore_files_from_compressed E file = CompOutcome.unsupported tag) ∧
    restoreCompActions E folder file = [] := by
  subst hfile
  simp only [recognizedTags, List.mem_cons, List.not_mem_nil, or_false,
    not_or] at hrec
  obtain ⟨hn1, hn2, hn3, hn4, hn5, hn6, hn7⟩ := hrec
  have hbrk : breakFirst '\n'
      (chars "COMPRESSED" ++ '\n' :: (tag ++ ':' :: data)) =
      some (chars "COMPRESSED", tag ++ ':' :: data) :=
    breakFirst_append '\n' _ _ (by decide)
  have hcol : breakFirst ':' (tag ++ ':' :: data) = some (tag, data) :=
    breakFirst_append ':' _ _ htag
  have hout : ∀ o, decompressStage E (tag ++ ':' :: data) = o →
      restore_files_from_compressed E
        (chars "COMPRESSED" ++ '\n' :: (tag ++ ':' :: data)) = o := by
    intro o ho
    simp only [restore_files_from_compressed, hbrk]
    rw [if_pos (by decide)]
    exact ho
  refine ⟨?_, ?_, ?_⟩
  · intro hb
    exact hout _ (by simp only [decompressStage, hcol, hb])
  · intro bs hb
    refine hout _ ?_
    simp only [decompressStage, hcol, hb, if_neg hn1, if_neg hn2, if_neg hn3,
      if_neg hn4, if_neg hn5, if_neg hn6, if_neg hn7]
  · unfold restoreCompActions
    cases hb : b85decode data with
    | none =>
      rw [hout CompOutcome.decompressFailed
        (by simp only [decompressStage, hcol, hb])]
    | some bs =>
      rw [hout (CompOutcome.unsupported tag)
        (by simp only [decompressStage, hcol, hb, if_neg hn1,
          if_neg hn2, if_neg hn3, if_neg hn4, if_neg hn5, if_neg hn6,
          if_neg hn7])]

/-- Witness for C6: a FOO-tagged artifact with a base85-clean payload is
reported as an unsupported method and performs no actions. -/
theorem claim_C6_unsupported_witness :
    (chars "FOO") ∉ recognizedTags ∧
    restore_files_from_compressed asciiCodec (chars "COMPRESSED\nFOO:abc") =
      CompOutcome.unsupported (chars "FOO") ∧
    restoreCompActions asciiCodec (chars "out")
      (chars "COMPRESSED\nFOO:abc") = [] :=
  ⟨by decide,
   (claim_C6_unsupported asciiCodec (chars "out") (chars "FOO") (chars "abc")
     (chars "COMPRESSED\nFOO:abc") (by decide) (by decide)
     (by decide)).2.1 [113, 97] (by decide),
   (claim_C6_unsupported asciiCodec (chars "out") (chars "FOO") (chars "abc")
     (chars "COMPRESSED\nFOO:abc") (by decide) (by decide)
     (by decide)).2.2⟩

/-- C7, as stated, is false on the fast path: a small input is returned as an
untagged base85 string when the codec succeeds (here the compressed form of
a two-character stream contains no colon and hence no tag), and as the bare
original text, without the RAW tag, when the codec fails. -/
theorem claim_C7_counterexample :
    asciiCodec.lzma6 (chars "hi") = some [104, 105] ∧
    compress_text asciiCodec (chars "hi") = b85encode [104, 105] ∧
    containsSub [':'] (compress_text asciiCodec (chars "hi")) = false ∧
    asciiCodec.lzma6 [Char.ofNat 131072] = none ∧
    compress_text asciiCodec [Char.ofNat 131072] = [Char.ofNat 131072] ∧
    compress_text asciiCodec [Char.ofNat 131072] ≠
      chars "RAW:" ++ [Char.ofNat 131072] :=
  ⟨by decide, by decide, by decide, by decide, by decide, by decide⟩

/-- C7 amended: on the multi-algorithm path the tag of the returned string
names exactly the codec whose output was selected, and when every codec
fails the text is returned under the RAW tag; the small-input fast path has
no tag at all. -/
theorem claim_C7_tagging (E : CodecExt) (S : List Char)
    (h : 2048 ≤ utf8Len S) :
    (resultsList E (reorganize_content_for_compression S) = [] →
      compress_text E S = chars "RAW:" ++ S) ∧
    (∀ pr,
      pickBest (resultsList E (reorganize_content_for_compression S)) =
        some pr →
      compress_text E S = pr.1 ++ ':' :: pr.2 ∧
      ((pr.1 = chars "LZMA" ∧ ∃ bs,
          E.lzma9e (reorganize_content_for_compression S) = some bs ∧
          pr.2 = b85encode bs) ∨
       (pr.1 = chars "BZ2" ∧ ∃ bs,
          E.bz2c9 (reorganize_content_for_compression S) = some bs ∧
          pr.2 = b85encode bs) ∨
       (pr.1 = chars "ZLIB" ∧ ∃ bs,
          E.zlibc9 (reorganize_content_for_compression S) = some bs ∧
          pr.2 = b85encode bs))) := by
  constructor
  · intro hnil
    simp only [compress_text]
    rw [if_neg (by omega), hnil]
    rfl
  · intro pr hpick
    constructor
    · simp only [compress_text]
      rw [if_neg (by omega), hpick]
    · rcases resultsList_mem E _ pr (pickBest_mem _ pr hpick) with
        ⟨bs, hbs, rfl⟩ | ⟨bs, hbs, rfl⟩ | ⟨bs, hbs, rfl⟩
      · exact Or.inl ⟨rfl, bs, hbs, rfl⟩
      · exact Or.inr (Or.inl ⟨rfl, bs, hbs, rfl⟩)
      · exact Or.inr (Or.inr ⟨rfl, bs, hbs, rfl⟩)

/-- Witness for C7: on the concrete 2048-byte stream the selected codec is
the LZMA entry and the output carries its tag. -/
theorem claim_C7_tagging_witness :
    2048 ≤ utf8Len bigText ∧
    compress_text asciiCodec bigText = chars "LZMA" ++ ':' :: b85encode [] :=
  ⟨by decide,
   ((claim_C7_tagging asciiCodec bigText (by decide)).2
     (chars "LZMA", b85encode []) (by decide)).1⟩

/-! ### The single-file branch of gather_files_to_txt (lines 601-632) -/

/-- The filesystem as an oracle: existence tests and utf-8 file reads (none
models a raised exception). -/
structure FsOracle where
  pathExists : List Char → Bool
  readText : List Char → Option (List Char)

/-- os.path.basename for forward-slash paths: the part after the last
separator. -/
def basename (p : List Char) : List Char := (pySplit '/' p).getLastD []

/-- The stripped nonempty lines of a candidate file-list file (lines 607 and
617). -/
def fileListLines (content : List Char) : List (List Char) :=
  ((pySplit '\n' content).map pyStrip).filter (fun l => l ≠ [])

/-- The files_to_process list built when the root is a single file (lines
601-632): the file is read and treated as a file list when its first
stripped nonempty line names an existing path, in which case every listed
path that exists contributes an entry under its own base name; otherwise the
file itself is the only entry, under its base name. -/
def singleFileEntries (fs : FsOracle) (input : List Char) :
    List (List Char × List Char) :=
  match fs.readText input with
  | none => [(basename input, input)]
  | some content =>
    let ls := fileListLines content
    if ls ≠ [] ∧ fs.pathExists (ls.headD []) = true then
      (ls.filter fs.pathExists).map (fun p => (basename p, p))
    else [(basename input, input)]

/-- An oracle on which every path exists and the root file reads as a
two-line list of other files. -/
def listFs2 : FsOracle where
  pathExists := fun _ => true
  readText := fun p =>
    if p = chars "list.txt" then some (chars "x.bin\ny.bin\n") else none

/-- An oracle whose reads return ordinary non-path text. -/
def plainFs : FsOracle where
  pathExists := fun _ => false
  readText := fun _ => some (chars "hello")

/-- C5, as stated, is false: a root file whose first stripped nonempty line
names an existing path is silently treated as a file list, producing one
entry per listed path under that path's own base name; the root file itself
contributes no entry at all. -/
theorem claim_C5_counterexample :
    singleFileEntries listFs2 (chars "list.txt") =
      [(chars "x.bin", chars "x.bin"), (chars "y.bin", chars "y.bin")] ∧
    (singleFileEntries listFs2 (chars "list.txt")).length ≠ 1 ∧
    (chars "list.txt", chars "list.txt") ∉
      singleFileEntries listFs2 (chars "list.txt") :=
  ⟨by decide, by decide, by decide⟩

/-- C5 amended: when the root file is not detected as a file list (its read
fails, or it has no stripped nonempty line, or the first one does not name
an existing path), the walk yields exactly one entry, the file itself under
its base name. -/
theorem claim_C5_single_file (fs : FsOracle) (input : List Char)
    (hno : ∀ content, fs.readText input = some content →
      fileListLines content ≠ [] →
      fs.pathExists ((fileListLines content).headD []) = false) :
    singleFileEntries fs input = [(basename input, input)] := by
  unfold singleFileEntries
  cases hr : fs.readText input with
  | none => rfl
  | some content =>
    show (if fileListLines content ≠ [] ∧
        fs.pathExists ((fileListLines content).headD []) = true then
        List.map (fun p => (basename p, p))
          (List.filter fs.pathExists (fileListLines content))
      else [(basename input, input)]) = [(basename input, input)]
    rw [if_neg]
    intro ⟨h1, h2⟩
    rw [hno content hr h1] at h2
    cases h2

/-- Witness for C5: a root whose content is ordinary text stays a single
entry under its own base name. -/
theorem claim_C5_single_file_witness :
    singleFileEntries plainFs (chars "dir/a.txt") =
      [(chars "a.txt", chars "dir/a.txt")] :=
  claim_C5_single_file plainFs (chars "dir/a.txt")
    (fun content h => by cases h; intro _; decide)

/-! ### is_binary_file (lines 482-589) -/

/-- The binary_extensions set of line 489, in source order (the repeats of
.psd and .obj are harmless under membership). -/
def binaryExtensions : List (List Char) :=
  pySplit ' ' (chars
    (".exe .dll .so .dylib .bin .dat .db .sqlite .msi .dmg " ++
     ".deb .rpm .app .ipa .pkg .msu .cab " ++
     ".jpg .jpeg .png .gif .bmp .ico .tiff .tif .webp " ++
     ".svg .psd .ai .eps .raw .cr2 .nef .arw .dng " ++
     ".heic .heif .jfif .jpx .j2k .avif .jp2 " ++
     ".mp3 .wav .flac .aac .ogg .wma .m4a .opus " ++
     ".aiff .au .ra .amr .ac3 .dts .pcm " ++
     ".mp4 .avi .mov .wmv .flv .mkv .webm .mpg .mpeg " ++
     ".m4v .3gp .f4v .asf .rm .rmvb .vob .ts .mts " ++
     ".ttf .otf .woff .woff2 .eot .pfb .pfm .afm " ++
     ".ttc .otc .fon .bdf .pcf " ++
     ".pdf .doc .docx .xls .xlsx .ppt .pptx .odt " ++
     ".ods .odp .pages .numbers .key .rtf .epub .mobi " ++
     ".zip .rar .7z .tar .gz .bz2 .xz .lzma .lz4 " ++
     ".zst .arj .lha .ace .iso .img .nrg .mds .cue " ++
     ".jar .war .ear .class .dex .apk .aar .pyc .pyo " ++
     ".wasm .o .obj .lib .a .pdb .ilk .exp " ++
     ".dwg .dxf .3ds .max .blend .fbx .obj .dae " ++
     ".skp .ifc .step .stp .iges .igs " ++
     ".mdb .accdb .dbf .sqlite3 .db3 .s3db .sl3 " ++
     ".unity3d .unitypackage .asset .prefab .mat .mesh " ++
     ".swf .fla .psd .sketch .fig .xd .indd " ++
     ".p12 .pfx .jks .keystore .cer .crt .p7b"))

/-- The text_extensions set of line 531, in source order. -/
def textExtensions : List (List Char) :=
  pySplit ' ' (chars
    (".txt .py .js .html .css .json .xml .yaml .yml " ++
     ".md .rst .csv .sql .sh .bat .ps1 .java .c " ++
     ".cpp .h .hpp .cs .php .rb .go .rs .swift " ++
     ".kt .scala .clj .hs .ml .fs .vb .pl .r " ++
     ".m .mm .tsx .jsx .vue .svelte .ts .coffee " ++
     ".sass .scss .less .styl .ini .cfg .conf .log " ++
     ".properties .gitignore .dockerignore .editorconfig"))

/-- The observable behavior of one file under the reading stages of
is_binary_file: whether some open or read raises a non-Unicode error
(escaping the inner handlers to the outer except at line 588), whether the
utf-8 probe of line 547 succeeds, whether the fallback-encodings loop of
lines 554-563 finds a decoding that passes the looks-like-text test of line
560, and the first 1024 bytes read at line 567. -/
structure ReadProbe where
  osError : Bool
  utf8ok : Bool
  fallbackText : Bool
  bytes : List Nat

/-- is_binary_file (lines 482-589): extension verdicts come first and read
nothing; then the utf-8 probe, the fallback encodings, and the byte-level
heuristics on the sample, with the empty sample and every error path
classified as text.  The two ratio thresholds of lines 578 and 583 are the
exact rational comparisons (Python computes them in floating point). -/
def is_binary_file (pr : ReadProbe) (path : List Char) : Bool :=
  let ext := (pySplitext (path.map Char.toLower)).2
  if binaryExtensions.contains ext then true
  else if textExtensions.contains ext then false
  else if pr.osError then false
  else if pr.utf8ok then false
  else if pr.fallbackText then false
  else
    let chunk := pr.bytes
    if chunk.length = 0 then false
    else if 0 < chunk.count 0 then true
    else if 10 * (chunk.filter
        (fun b => (32 ≤ b ∧ b ≤ 126) ∨ b = 9 ∨ b = 10 ∨ b = 13)).length <
        7 * chunk.length then true
    else if chunk.length < 10 * (chunk.filter
        (fun b => b < 32 ∧ b ≠ 9 ∧ b ≠ 10 ∧ b ≠ 13)).length then true
    else false

/-- C9, as stated, is false: the extension table answers before any read, so
a path with a binary extension and an empty (zero-byte) sample is classified
Binary, not Text. -/
theorem claim_C9_counterexample :
    is_binary_file ⟨false, false, false, []⟩ (chars "a.exe") = true ∧
    (⟨false, false, false, []⟩ : ReadProbe).bytes = [] :=
  ⟨by decide, rfl⟩

/-- C9 amended: for every path whose lowercased extension is not in the
binary table, the classifier defaults to Text on an empty sample and on any
error escaping to the outer handler. -/
theorem claim_C9_default_text (pr : ReadProbe) (path : List Char)
    (hnb : binaryExtensions.contains
      ((pySplitext (path.map Char.toLower)).2) = false) :
    (pr.osError = true → is_binary_file pr path = false) ∧
    (pr.bytes = [] → is_binary_file pr path = false) := by
  have hnb2 : (pySplitext (List.map Char.toLower path)).2 ∉ binaryExtensions := by
    intro hm
    have hc : binaryExtensions.contains
        ((pySplitext (List.map Char.toLower path)).2) = true := by
      simpa [List.contains, List.elem_iff] using hm
    rw [hnb] at hc
    cases hc
  constructor
  · intro hos
    cases hb1 : textExtensions.contains ((pySplitext (path.map Char.toLower)).2) <;>
      simp [is_binary_file, hnb2, hb1, hos]
  · intro hby
    cases hb1 : textExtensions.contains ((pySplitext (path.map Char.toLower)).2) <;>
      cases hb2 : pr.osError <;> cases hb3 : pr.utf8ok <;>
      cases hb4 : pr.fallbackText <;>
      simp [is_binary_file, hnb2, hb1, hb2, hb3, hb4, hby]

/-- Witness for C9: a path with an unknown extension, an erroring probe and
an empty sample is classified Text both ways. -/
theorem claim_C9_default_text_witness :
    is_binary_file ⟨true, false, false, []⟩ (chars "a.xyz") = false ∧
    is_binary_file ⟨false, false, false, []⟩ (chars "a.xyz") = false :=
  ⟨(claim_C9_default_text ⟨true, false, false, []⟩ (chars "a.xyz")
      (by decide)).1 rfl,
   (claim_C9_default_text ⟨false, false, false, []⟩ (chars "a.xyz")
      (by decide)).2 rfl⟩

/-! ### Truncated artifacts (C8) and the triple invariant (C10) -/

/-- The number of fully recovered entries a restore run reports. -/
def recoveredBlocks : TxtResult → Nat
  | .restored p _ => p.length / 3
  | _ => 0

/-- A one-file tree whose content line is a decorator look-alike; its
truncations exercise the crash and the marker-forging behaviors. -/
def demoTree : List FsEntry :=
  [.text (chars "f.txt") [chars "@staticmethodX"]]

/-- C10: the parts list of the scanning loop (shared verbatim by the
uncompressed decoder, lines 1076-1135, and the compressed one, lines
1407-1465) always has length divisible by three, so the corrupted-format
branch is unreachable: restore_files_from_txt never returns it, on any
input. -/
theorem claim_C10_triples (folder txt : List Char)
    (existing : List (List Char)) (ls : List (List Char)) :
    (parseParts ls).length % 3 = 0 ∧
    restore_files_from_txt folder txt existing ≠ TxtResult.corrupted := by
  have hmod : ∀ ms : List (List Char), (parseParts ms).length % 3 = 0 :=
    fun ms => parseLoopF_mod3 _ ms none [] rfl
  refine ⟨hmod ls, ?_⟩
  unfold restore_files_from_txt
  repeat' split
  all_goals simp_all [hmod]
  all_goals repeat' split
  all_goals simp_all [hmod]

/-- C8, as stated, is false twice over: truncating a valid artifact to
exactly its header word leaves no newline, and the decoder raises an
uncaught IndexError at the split-index-one access; truncating inside a
decorator look-alike content line forges a valid marker, and the recovered
entry count exceeds the original.  Concretely, the demo artifact holds one
entry, its twelve-character truncation crashes, and its twenty-six-character
truncation reports two recovered entries. -/
theorem claim_C8_counterexample :
    restore_files_from_txt (chars "out")
      (List.take 12 (artifactChars demoTree)) [] = TxtResult.indexCrash ∧
    recoveredBlocks
      (restore_files_from_txt (chars "out") (artifactChars demoTree) []) =
      1 ∧
    recoveredBlocks (restore_files_from_txt (chars "out")
      (List.take 26 (artifactChars demoTree)) []) = 2 :=
  ⟨by decide, by decide, by decide⟩

/-- C8 amended: decoding a truncation of an artifact always terminates, and
the outcome is classified exactly by the cut point: strictly inside the
header word the format is unrecognized, at the end of the header word (no
newline survives) the decoder raises the IndexError, and past the header
newline it returns cleanly with either no blocks or a recovered parts list,
never the corrupted report; no bound relates the recovered count to the
original. -/
theorem restore_header_cases (folder t : List Char)
    (existing : List (List Char))
    (h1 : (pyStrip ((pySplit '\n' t).headD []) ==
      chars "=== SNAPSHOT_FORMAT: COMPRESSED ===") = false)
    (h2 : (pyStrip ((pySplit '\n' t).headD []) ==
      chars "=== SNAPSHOT_FORMAT: UNCOMPRESSED ===") = false)
    (h3 : (pyStrip ((pySplit '\n' t).headD []) == chars "COMPRESSED") =
      false) :
    ((pyStrip ((pySplit '\n' t).headD []) == chars "UNCOMPRESSED") = false →
      restore_files_from_txt folder t existing = TxtResult.badFormat) ∧
    ((pyStrip ((pySplit '\n' t).headD []) == chars "UNCOMPRESSED") = true →
      breakFirst '\n' t = none →
      restore_files_from_txt folder t existing = TxtResult.indexCrash) := by
  constructor
  · intro h4
    simp at h1 h2 h3 h4
    unfold restore_files_from_txt
    cases hbrk : breakFirst '\n' t <;> simp [hbrk, h1, h2, h3, h4]
  · intro h4 hbrk
    simp at h1 h2 h3 h4
    unfold restore_files_from_txt
    simp [hbrk, h1, h2, h3, h4]
    decide

theorem claim_C8_truncation (folder body : List Char)
    (existing : List (List Char)) (k : Nat) :
    (k < 12 → restore_files_from_txt folder
      (List.take k (chars "UNCOMPRESSED" ++ '\n' :: body)) existing =
      TxtResult.badFormat) ∧
    (restore_files_from_txt folder
      (List.take 12 (chars "UNCOMPRESSED" ++ '\n' :: body)) existing =
      TxtResult.indexCrash) ∧
    (13 ≤ k →
      restore_files_from_txt folder
        (List.take k (chars "UNCOMPRESSED" ++ '\n' :: body)) existing =
        TxtResult.noBlocks ∨
      ∃ p a, restore_files_from_txt folder
        (List.take k (chars "UNCOMPRESSED" ++ '\n' :: body)) existing =
        TxtResult.restored p a) := by
  have hlen : (chars "UNCOMPRESSED").length = 12 := by decide
  refine ⟨?_, ?_, ?_⟩
  · intro hk
    have hz : k - (chars "UNCOMPRESSED").length = 0 := by omega
    rw [List.take_append_eq_append_take, hz, List.take_zero, List.append_nil]
    interval_cases k <;>
      exact (restore_header_cases folder _ existing (by decide) (by decide)
        (by decide)).1 (by decide)
  · have hz : 12 - (chars "UNCOMPRESSED").length = 0 := by omega
    rw [List.take_append_eq_append_take, hz, List.take_zero, List.append_nil]
    exact (restore_header_cases folder _ existing (by decide) (by decide)
      (by decide)).2 (by decide) (by decide)
  · intro hk
    obtain ⟨m, rfl⟩ : ∃ m, k = m + 13 := ⟨k - 13, by omega⟩
    have htake : List.take (m + 13) (chars "UNCOMPRESSED" ++ '\n' :: body) =
        chars "UNCOMPRESSED" ++ '\n' :: List.take m body := by
      rw [List.take_append_eq_append_take]
      have h1 : List.take (m + 13) (chars "UNCOMPRESSED") =
          chars "UNCOMPRESSED" := List.take_of_length_le (by omega)
      have h2 : m + 13 - (chars "UNCOMPRESSED").length = m + 1 := by omega
      rw [h1, h2, List.take_succ_cons]
    rw [htake]
    have hsplit := pySplit_append '\n' (chars "UNCOMPRESSED")
      (List.take m body) (by decide)
    unfold restore_files_from_txt
    rw [hsplit, List.headD_cons]
    rw [if_neg (by decide), if_neg (by decide), if_neg (by decide),
      if_pos (by decide)]
    rw [breakFirst_append '\n' _ _ (by decide)]
    have hmod : ((parseParts (pySplit '\n' (List.take m body))).length % 3 !=
        0) = false := by
      have hm := parseLoopF_mod3 (pySplit '\n' (List.take m body)).length
        (pySplit '\n' (List.take m body)) none [] rfl
      simp only [parseParts, parseLoop]
      simp [hm]
    simp only [hmod, Bool.false_eq_true, if_false]
    cases hdiv : ((parseParts (pySplit '\n' (List.take m body))).length / 3 ==
        0) with
    | true => left; simp [hdiv]
    | false =>
      right
      refine ⟨parseParts (pySplit '\n' (List.take m body)),
        restoreTxtLoop folder
          (parseParts (pySplit '\n' (List.take m body))) existing, ?_⟩
      simp [hdiv]

/-- Witness for C8: a five-character truncation of a small artifact is an
unrecognized format, and a truncation past the header restores cleanly. -/
theorem claim_C8_truncation_witness :
    restore_files_from_txt (chars "out")
      (List.take 5 (chars "UNCOMPRESSED" ++ '\n' :: chars "@f\nx\n")) [] =
      TxtResult.badFormat ∧
    (restore_files_from_txt (chars "out")
      (List.take 20 (chars "UNCOMPRESSED" ++ '\n' :: chars "@f\nx\n")) [] =
      TxtResult.noBlocks ∨
     ∃ p a, restore_files_from_txt (chars "out")
      (List.take 20 (chars "UNCOMPRESSED" ++ '\n' :: chars "@f\nx\n")) [] =
      TxtResult.restored p a) :=
  ⟨(claim_C8_truncation (chars "out") (chars "@f\nx\n") [] 5).1 (by decide),
   (claim_C8_truncation (chars "out") (chars "@f\nx\n") [] 20).2.2
     (by decide)⟩
end FolderSnapshot

